import Mathlib

/-!
Shallow embedding of the core of the rundler-hc bundler, translated from the
Rust sources:

* src/src/builder/bundle_proposer.rs       (bundle proposer)
* src/crates/pool/src/chain.rs             (chain tracker)
* src/src/builder/transaction_tracker.rs   (transaction tracker)
* src/crates/builder/src/sender/raw.rs     (raw transaction sender)

Machine integers (U256/u64) are modelled as Nat: the quantities involved
(nonces, balances, gas) never overflow 256 bits on the codes' own
assumptions, and all arithmetic used here (add, sub-with-guard, mul, div)
agrees with Nat arithmetic on in-range values.  Addresses and hashes are
modelled as Nat; byte strings as List Nat; revert-message strings as
List Char (the code only ever slices the first four ASCII characters).
Asynchronous provider / entry-point / sender calls are modelled as oracle
functions passed in as parameters; a fallible call returns Option, with
none for the error case.  Loops whose termination depends on the
environment take an explicit fuel parameter.
-/

namespace Rundler

abbrev Address := Nat
abbrev Bytes := List Nat

/-- Entity kinds, from crates/types entity module (re-exported by
crates/types/src/lib.rs; used by bundle_proposer.rs via
Entity::paymaster / factory / aggregator and a catch-all arm). -/
inductive EntityType
  | account
  | aggregator
  | paymaster
  | factory
deriving Repr, DecidableEq

structure Entity where
  kind : EntityType
  address : Address
deriving Repr, DecidableEq

def Entity.paymaster (address : Address) : Entity := ⟨EntityType.paymaster, address⟩

def Entity.factory (address : Address) : Entity := ⟨EntityType.factory, address⟩

def Entity.aggregator (address : Address) : Entity := ⟨EntityType.aggregator, address⟩

/-- A user operation as the proposer sees it.  The accessor methods
op.paymaster(), op.factory() (leading 20 bytes of paymaster_and_data /
init_code when present) and op.max_gas_cost() live in the types crate,
which is not part of the excerpt; they are modelled as fields carrying
their values, which is all bundle_proposer.rs uses of them. -/
structure UserOperation where
  sender : Address
  nonce : Nat
  paymaster : Option Address
  factory : Option Address
  max_gas_cost : Nat
  max_priority_fee_per_gas : Nat
  signature : Bytes
deriving Repr, DecidableEq

/-- Aggregator output of a successful simulation (simulation.rs). -/
structure AggregatorSimOut where
  address : Address
  signature : Bytes
deriving Repr, DecidableEq

/-- The parts of SimulationSuccess used by the proposer.  The time-range
check success.valid_time_range.contains(Timestamp::now(), TIME_RANGE_BUFFER)
involves wall-clock time, so its truth value is carried as the boolean
field valid_time_range_ok. -/
structure SimulationSuccess where
  signature_failed : Bool
  valid_time_range_ok : Bool
  accessed_addresses : List Address
  aggregator : Option AggregatorSimOut
deriving Repr, DecidableEq

def SimulationSuccess.aggregator_address (s : SimulationSuccess) : Option Address :=
  s.aggregator.map (fun a => a.address)

structure OpWithSimulation where
  op : UserOperation
  simulation : SimulationSuccess
deriving Repr, DecidableEq

/-- bundle_proposer.rs: op_with_replaced_sig. -/
def OpWithSimulation.op_with_replaced_sig (x : OpWithSimulation) : UserOperation :=
  match x.simulation.aggregator with
  | some aggregator => { x.op with signature := aggregator.signature }
  | none => x.op

structure AggregatorGroup where
  ops_with_simulations : List OpWithSimulation
  signature : Bytes
deriving Repr, DecidableEq

structure UserOpsPerAggregator where
  user_ops : List UserOperation
  aggregator : Address
  signature : Bytes
deriving Repr, DecidableEq

/-- The proposal context of bundle_proposer.rs.  groups_by_aggregator is a
LinkedHashMap, modelled as an association list in insertion order with
unique keys. -/
structure ProposalContext where
  groups_by_aggregator : List (Option Address × AggregatorGroup)
  rejected_ops : List UserOperation
  rejected_entities : List Entity
deriving Repr, DecidableEq

/-- LinkedHashMap::get. -/
def lhmGet (m : List (Option Address × AggregatorGroup)) (k : Option Address) :
    Option AggregatorGroup :=
  (m.find? (fun e => decide (e.1 = k))).map (fun e => e.2)

/-- LinkedHashMap::remove (keys are unique, so removing the first match
is removing the only one). -/
def lhmRemove (m : List (Option Address × AggregatorGroup)) (k : Option Address) :
    List (Option Address × AggregatorGroup) :=
  m.eraseP (fun e => decide (e.1 = k))

/-- groups_by_aggregator.entry(k).or_default().ops_with_simulations.push(x):
appends to an existing group, or inserts a fresh group at the back
(LinkedHashMap keeps first-insertion order, new keys go last). -/
def lhmPushOp : List (Option Address × AggregatorGroup) → Option Address →
    OpWithSimulation → List (Option Address × AggregatorGroup)
  | [], k, x => [(k, { ops_with_simulations := [x], signature := [] })]
  | e :: rest, k, x =>
    if e.1 = k then
      (k, { e.2 with ops_with_simulations := e.2.ops_with_simulations ++ [x] }) :: rest
    else
      e :: lhmPushOp rest k x

/-- groups_by_aggregator[&k].signature = sig (the key is always present at
the call sites; on an absent key this is the identity, where the Rust
index would be unreachable). -/
def lhmSetSig (m : List (Option Address × AggregatorGroup)) (k : Option Address)
    (sig : Bytes) : List (Option Address × AggregatorGroup) :=
  m.map (fun e => if e.1 = k then (e.1, { e.2 with signature := sig }) else e)

def ProposalContext.is_empty (c : ProposalContext) : Bool :=
  c.groups_by_aggregator.isEmpty

/-- Result of provider.aggregate_signatures: anyhow::Result<Option<Bytes>>. -/
inductive SigResult
  | okSome (sig : Bytes)
  | okNone
  | err
deriving Repr, DecidableEq

/-- bundle_proposer.rs: ProposalContext::reject_aggregator. -/
def ProposalContext.reject_aggregator (c : ProposalContext) (address : Address) :
    ProposalContext :=
  { c with groups_by_aggregator := lhmRemove c.groups_by_aggregator (some address) }

/-- bundle_proposer.rs: ProposalContext::apply_aggregation_signature_result. -/
def ProposalContext.apply_aggregation_signature_result (c : ProposalContext)
    (aggregator : Address) (result : SigResult) : ProposalContext :=
  match result with
  | SigResult.okSome sig =>
    { c with groups_by_aggregator := lhmSetSig c.groups_by_aggregator (some aggregator) sig }
  | SigResult.okNone => c.reject_aggregator aggregator
  | SigResult.err =>
    { c with groups_by_aggregator := lhmRemove c.groups_by_aggregator (some aggregator) }

/-- bundle_proposer.rs: ProposalContext::get_op_at, walking the groups in
insertion order with a running index. -/
def getOpAtAux : List (Option Address × AggregatorGroup) → Nat → Option UserOperation
  | [], _ => none
  | e :: rest, i =>
    if i < e.2.ops_with_simulations.length then
      (e.2.ops_with_simulations.get? i).map (fun x => x.op)
    else
      getOpAtAux rest (i - e.2.ops_with_simulations.length)

def ProposalContext.get_op_at (c : ProposalContext) (index : Nat) : Option UserOperation :=
  getOpAtAux c.groups_by_aggregator index

/-- bundle_proposer.rs: ProposalContext::reject_index on the group list.
Returns (new groups, rejected op, aggregator key of the touched group) if
the index is in bounds; the touched group is dropped when it becomes
empty (and then no signature needs recomputing). -/
def rejectIndexAux : List (Option Address × AggregatorGroup) → Nat →
    Option (List (Option Address × AggregatorGroup) × OpWithSimulation × Option (Option Address))
  | [], _ => none
  | e :: rest, i =>
    if i < e.2.ops_with_simulations.length then
      match e.2.ops_with_simulations.get? i with
      | none => none
      | some rejected =>
        let newOps := e.2.ops_with_simulations.eraseIdx i
        if newOps.isEmpty then
          some (rest, rejected, some none)
        else
          some ((e.1, { e.2 with ops_with_simulations := newOps }) :: rest, rejected, some e.1)
    else
      (rejectIndexAux rest (i - e.2.ops_with_simulations.length)).map
        (fun r => (e :: r.1, r.2.1, r.2.2))

/-- bundle_proposer.rs: ProposalContext::reject_index.  Out-of-bounds
indices only log an error and change nothing.  The returned Option Address
is the aggregator whose signature may need recomputing: none when the
index was out of bounds, when the touched group was keyed by no
aggregator, or when the group was deleted because it became empty. -/
def ProposalContext.reject_index (c : ProposalContext) (i : Nat) :
    ProposalContext × Option Address :=
  match rejectIndexAux c.groups_by_aggregator i with
  | none => (c, none)
  | some (groups, rejected, found) =>
    ({ c with groups_by_aggregator := groups,
              rejected_ops := c.rejected_ops ++ [rejected.op] },
     match found with
     | some (some a) =>
       -- group survived with aggregator key a (the a-keyed group was only
       -- kept when nonempty, in which case its signature is invalidated)
       some a
     | _ => none)

/-- bundle_proposer.rs: ProposalContext::filter_reject on the group list.
Each group containing a matching op is rebuilt without the matching ops;
groups emptied this way are removed; the aggregator addresses of the
surviving rebuilt groups are collected for signature recomputation. -/
def filterRejectAux (filter : UserOperation → Bool) :
    List (Option Address × AggregatorGroup) →
    List (Option Address × AggregatorGroup) × List Address
  | [] => ([], [])
  | e :: rest =>
    let r := filterRejectAux filter rest
    if e.2.ops_with_simulations.any (fun o => filter o.op) then
      let kept := e.2.ops_with_simulations.filter (fun o => ! filter o.op)
      if kept.isEmpty then
        r
      else
        ((e.1, { e.2 with ops_with_simulations := kept }) :: r.1,
         match e.1 with
         | some a => a :: r.2
         | none => r.2)
    else
      (e :: r.1, r.2)

def ProposalContext.filter_reject (c : ProposalContext) (filter : UserOperation → Bool) :
    ProposalContext × List Address :=
  let r := filterRejectAux filter c.groups_by_aggregator
  ({ c with groups_by_aggregator := r.1 }, r.2)

/-- bundle_proposer.rs: ProposalContext::reject_entity.  The entity is
appended to rejected_entities; the returned addresses are aggregators
whose signature may need recomputing. -/
def ProposalContext.reject_entity (c : ProposalContext) (entity : Entity) :
    ProposalContext × List Address :=
  let r : ProposalContext × List Address :=
    match entity.kind with
    | EntityType.aggregator => (c.reject_aggregator entity.address, [])
    | EntityType.paymaster =>
      c.filter_reject (fun op => decide (op.paymaster = some entity.address))
    | EntityType.factory =>
      c.filter_reject (fun op => decide (op.factory = some entity.address))
    | _ => (c, [])
  ({ r.1 with rejected_entities := r.1.rejected_entities ++ [entity] }, r.2)

/-- bundle_proposer.rs: ProposalContext::to_ops_per_aggregator. -/
def ProposalContext.to_ops_per_aggregator (c : ProposalContext) :
    List UserOpsPerAggregator :=
  c.groups_by_aggregator.map (fun e =>
    { user_ops := e.2.ops_with_simulations.map (fun x => x.op_with_replaced_sig)
      aggregator := e.1.getD 0
      signature := e.2.signature })

/-- bundle_proposer.rs: compute_aggregator_signatures.  The signature
futures are gathered against the current context (one per listed
aggregator that still has a group, each over the group's ops), then the
results are applied in order.  aggSig is the oracle for
provider.aggregate_signatures. -/
def computeAggregatorSignatures (aggSig : Address → List UserOperation → SigResult)
    (c : ProposalContext) (aggregators : List Address) : ProposalContext :=
  let signatures := aggregators.filterMap (fun a =>
    (lhmGet c.groups_by_aggregator (some a)).map (fun group =>
      (a, aggSig a (group.ops_with_simulations.map (fun x => x.op)))))
  signatures.foldl (fun ctx p => ctx.apply_aggregation_signature_result p.1 p.2) c

/-- bundle_proposer.rs: compute_all_aggregator_signatures
(keys().flatten() = every some-key, in insertion order). -/
def compute_all_aggregator_signatures (aggSig : Address → List UserOperation → SigResult)
    (c : ProposalContext) : ProposalContext :=
  computeAggregatorSignatures aggSig c (c.groups_by_aggregator.filterMap (fun e => e.1))

/-- entry_point_like.rs: HandleOpsOut.  The revert message is kept as a
list of characters; the code only ever slices its first four bytes, which
for the ASCII entry-point codes coincide with the first four characters. -/
inductive HandleOpsOut
  | SuccessWithGas (gas : Nat)
  | FailedOp (index : Nat) (message : List Char)
  | SignatureValidationFailed (aggregator : Address)
deriving Repr, DecidableEq

/-- The slice &message[..4]: none models the byte-slice panic on a message
shorter than four bytes. -/
def first4 (message : List Char) : Option (List Char) :=
  if message.length < 4 then none else some (message.take 4)

/-- Outcome of process_failed_op: ok with the mutated context, an anyhow
error propagated out of make_bundle, or the &message[..4] slice panic. -/
inductive FailedOpOutcome
  | ok (c : ProposalContext)
  | errored
  | panicked
deriving Repr, DecidableEq

def isFactoryCode (m4 : List Char) : Bool :=
  decide (m4 = ['A', 'A', '1', '3']) || decide (m4 = ['A', 'A', '1', '4']) ||
    decide (m4 = ['A', 'A', '1', '5'])

def isPaymasterCode (m4 : List Char) : Bool :=
  decide (m4 = ['A', 'A', '3', '0']) || decide (m4 = ['A', 'A', '3', '1']) ||
    decide (m4 = ['A', 'A', '3', '3']) || decide (m4 = ['A', 'A', '3', '4'])

/-- bundle_proposer.rs: process_failed_op, including the
compute_aggregator_signatures call done by the surrounding
reject_entity / reject_index helpers of BundleProposerImpl. -/
def process_failed_op (aggSig : Address → List UserOperation → SigResult)
    (c : ProposalContext) (index : Nat) (message : List Char) : FailedOpOutcome :=
  match first4 message with
  | none => FailedOpOutcome.panicked
  | some m4 =>
    if isFactoryCode m4 then
      match c.get_op_at index with
      | none => FailedOpOutcome.errored
      | some op =>
        match op.factory with
        | none => FailedOpOutcome.errored
        | some factory =>
          let r := c.reject_entity (Entity.factory factory)
          FailedOpOutcome.ok (computeAggregatorSignatures aggSig r.1 r.2)
    else if isPaymasterCode m4 then
      match c.get_op_at index with
      | none => FailedOpOutcome.errored
      | some op =>
        match op.paymaster with
        | none => FailedOpOutcome.errored
        | some paymaster =>
          let r := c.reject_entity (Entity.paymaster paymaster)
          FailedOpOutcome.ok (computeAggregatorSignatures aggSig r.1 r.2)
    else
      let r := c.reject_index index
      FailedOpOutcome.ok (computeAggregatorSignatures aggSig r.1 r.2.toList)

/-- bundle_proposer.rs: Bundle.  expected_storage_slots is always left at
its default by the proposer (a TODO in the source) and is omitted here. -/
structure Bundle where
  ops_per_aggregator : List UserOpsPerAggregator
  gas_estimate : Nat
  max_priority_fee_per_gas : Nat
  rejected_ops : List UserOperation
  rejected_entities : List Entity
deriving Repr, DecidableEq

/-- Result of the gas-estimation loop of make_bundle.  outOfFuel
witnesses that the loop would run for more iterations than the given
fuel; errored models an anyhow error returned by make_bundle; panicked
models the message-slice panic of process_failed_op. -/
inductive LoopResult
  | ok (b : Bundle)
  | errored
  | panicked
  | outOfFuel
deriving Repr, DecidableEq

/-- The empty bundle returned when the context runs out of ops
(Bundle { rejected_ops, rejected_entities, ..Default::default() }). -/
def emptyExit (c : ProposalContext) : Bundle :=
  { ops_per_aggregator := []
    gas_estimate := 0
    max_priority_fee_per_gas := 0
    rejected_ops := c.rejected_ops
    rejected_entities := c.rejected_entities }

/-- The while-loop of make_bundle together with
estimate_gas_rejecting_failed_ops.  estimate is the oracle for
entry_point.estimate_handle_ops_gas (called on
context.to_ops_per_aggregator; the beneficiary argument is a constant of
the proposer and is absorbed into the oracle).  One unit of fuel is one
estimate_handle_ops_gas call. -/
def make_bundle_loop (aggSig : Address → List UserOperation → SigResult)
    (estimate : List UserOpsPerAggregator → HandleOpsOut)
    (max_priority_fee_per_gas : Nat) : Nat → ProposalContext → LoopResult
  | 0, c => if c.is_empty then LoopResult.ok (emptyExit c) else LoopResult.outOfFuel
  | fuel + 1, c =>
    if c.is_empty then
      LoopResult.ok (emptyExit c)
    else
      match estimate c.to_ops_per_aggregator with
      | HandleOpsOut.SuccessWithGas gas =>
        LoopResult.ok
          { ops_per_aggregator := c.to_ops_per_aggregator
            gas_estimate := gas
            max_priority_fee_per_gas := max_priority_fee_per_gas
            rejected_ops := c.rejected_ops
            rejected_entities := c.rejected_entities }
      | HandleOpsOut.FailedOp index message =>
        match process_failed_op aggSig c index message with
        | FailedOpOutcome.ok c' => make_bundle_loop aggSig estimate max_priority_fee_per_gas fuel c'
        | FailedOpOutcome.errored => LoopResult.errored
        | FailedOpOutcome.panicked => LoopResult.panicked
      | HandleOpsOut.SignatureValidationFailed aggregator =>
        let r := c.reject_entity (Entity.aggregator aggregator)
        make_bundle_loop aggSig estimate max_priority_fee_per_gas fuel
          (computeAggregatorSignatures aggSig r.1 r.2)

/-- State of the for-loop of assemble_context. -/
structure AssembleState where
  groups_by_aggregator : List (Option Address × AggregatorGroup)
  rejected_ops : List UserOperation
  paymasters_to_reject : List Address
  balances : Address → Option Nat

/-- One iteration of the for-loop of assemble_context. -/
def assembleStep (all_sender_addresses : List Address) (st : AssembleState)
    (x : UserOperation × Option SimulationSuccess) : AssembleState :=
  match x.2 with
  | none => { st with rejected_ops := st.rejected_ops ++ [x.1] }
  | some simulation =>
    if simulation.accessed_addresses.any
        (fun address => decide (address ≠ x.1.sender) && all_sender_addresses.contains address) then
      -- excluded from the bundle but not rejected from the pool
      st
    else
      match x.1.paymaster with
      | some paymaster =>
        match st.balances paymaster with
        | none =>
          -- unknown balance: logged as an error, op dropped
          st
        | some balance =>
          if balance < x.1.max_gas_cost then
            { st with paymasters_to_reject := st.paymasters_to_reject ++ [paymaster] }
          else
            { st with
              balances := fun a => if a = paymaster then some (balance - x.1.max_gas_cost)
                                   else st.balances a
              groups_by_aggregator :=
                lhmPushOp st.groups_by_aggregator simulation.aggregator_address
                  ⟨x.1, simulation⟩ }
      | none =>
        { st with
          groups_by_aggregator :=
            lhmPushOp st.groups_by_aggregator simulation.aggregator_address ⟨x.1, simulation⟩ }

/-- bundle_proposer.rs: assemble_context. -/
def assemble_context (aggSig : Address → List UserOperation → SigResult)
    (ops_with_simulations : List (UserOperation × Option SimulationSuccess))
    (balances_by_paymaster : Address → Option Nat) : ProposalContext :=
  let all_sender_addresses := ops_with_simulations.map (fun x => x.1.sender)
  let st := ops_with_simulations.foldl (assembleStep all_sender_addresses)
    { groups_by_aggregator := []
      rejected_ops := []
      paymasters_to_reject := []
      balances := balances_by_paymaster }
  let context : ProposalContext :=
    { groups_by_aggregator := st.groups_by_aggregator
      rejected_ops := st.rejected_ops
      rejected_entities := [] }
  -- the changed-aggregator lists are discarded: signatures have not been
  -- computed yet at this point
  let context := st.paymasters_to_reject.foldl
    (fun c paymaster => (c.reject_entity (Entity.paymaster paymaster)).1) context
  compute_all_aggregator_signatures aggSig context

/-- Per-op oracle for simulate_validation in make_bundle:
success carries the SimulationSuccess; violations is
SimulationError::Violations (op kept with no simulation, hence rejected);
other is SimulationError::Other (op dropped silently). -/
inductive SimOutcome
  | success (s : SimulationSuccess)
  | violations
  | other
deriving Repr, DecidableEq

structure OpFromPool where
  op : UserOperation
  sim_outcome : SimOutcome
deriving Repr, DecidableEq

/-- bundle_proposer.rs: simulate_validation (the filter applied to a
successful simulation) combined with the filter_map in make_bundle that
drops SimulationError::Other results. -/
def simulate_validation (x : OpFromPool) :
    Option (UserOperation × Option SimulationSuccess) :=
  match x.sim_outcome with
  | SimOutcome.success s =>
    some (x.op, if !s.signature_failed && s.valid_time_range_ok then some s else none)
  | SimOutcome.violations => some (x.op, none)
  | SimOutcome.other => none

structure ProposerSettings where
  max_bundle_size : Nat
  beneficiary : Address
  use_dynamic_max_priority_fee : Bool
  max_priority_fee_overhead_percent : Nat
deriving Repr, DecidableEq

/-- bundle_proposer.rs: make_bundle.  Oracles: aggSig for
provider.aggregate_signatures, estimate for
entry_point.estimate_handle_ops_gas, get_deposit for
entry_point.get_deposit at the selection block hash,
quoted_max_priority_fee for provider.get_max_priority_fee.  pool_ops are
the (at most max_bundle_size) candidates returned by the op pool, each
with its simulate_validation outcome.  fuel bounds the gas-estimation
loop. -/
def bundleMaxPriorityFee (settings : ProposerSettings) (quoted_max_priority_fee : Nat) : Nat :=
  if settings.use_dynamic_max_priority_fee then quoted_max_priority_fee else 0

/-- The priority-fee filter of make_bundle:
op.max_priority_fee_per_gas >= quote * (100 + overhead_percent) / 100. -/
def bundleFeeFiltered (settings : ProposerSettings) (pool_ops : List OpFromPool)
    (quoted_max_priority_fee : Nat) : List OpFromPool :=
  pool_ops.filter (fun x =>
    bundleMaxPriorityFee settings quoted_max_priority_fee
        * (100 + settings.max_priority_fee_overhead_percent) / 100
      ≤ x.op.max_priority_fee_per_gas)

/-- get_balances_by_paymaster, queried for the paymasters of every pool op
at the selection block hash (so defined exactly on those addresses). -/
def balances_by_paymaster (get_deposit : Address → Nat) (pool_ops : List OpFromPool) :
    Address → Option Nat := fun a =>
  if (pool_ops.filterMap (fun x => x.op.paymaster)).contains a then some (get_deposit a)
  else none

/-- The proposal context make_bundle assembles before entering its
gas-estimation loop. -/
def makeBundleContext (settings : ProposerSettings)
    (aggSig : Address → List UserOperation → SigResult) (get_deposit : Address → Nat)
    (pool_ops : List OpFromPool) (quoted_max_priority_fee : Nat) : ProposalContext :=
  assemble_context aggSig
    ((bundleFeeFiltered settings pool_ops quoted_max_priority_fee).filterMap simulate_validation)
    (balances_by_paymaster get_deposit pool_ops)

def make_bundle (settings : ProposerSettings)
    (aggSig : Address → List UserOperation → SigResult)
    (estimate : List UserOpsPerAggregator → HandleOpsOut)
    (get_deposit : Address → Nat)
    (pool_ops : List OpFromPool) (quoted_max_priority_fee : Nat) (fuel : Nat) : LoopResult :=
  make_bundle_loop aggSig estimate (bundleMaxPriorityFee settings quoted_max_priority_fee) fuel
    (makeBundleContext settings aggSig get_deposit pool_ops quoted_max_priority_fee)

/-! ### Paymaster gas cost accounting

The running totals used to state the paymaster-deposit invariant of the
proposer: the max_gas_cost charged to a given paymaster by the ops of a
group list or an emitted bundle. -/

/-- max_gas_cost of an op when it is sponsored by paymaster p, else 0. -/
def opCostIf (p : Address) (op : UserOperation) : Nat :=
  if op.paymaster = some p then op.max_gas_cost else 0

def opsCost (p : Address) (ops : List OpWithSimulation) : Nat :=
  (ops.map (fun o => opCostIf p o.op)).sum

def groupsCost (p : Address) (gs : List (Option Address × AggregatorGroup)) : Nat :=
  (gs.map (fun e => opsCost p e.2.ops_with_simulations)).sum

def bundleCost (p : Address) (b : List UserOpsPerAggregator) : Nat :=
  (b.map (fun u => (u.user_ops.map (opCostIf p)).sum)).sum

theorem opCostIf_op_with_replaced_sig (p : Address) (x : OpWithSimulation) :
    opCostIf p x.op_with_replaced_sig = opCostIf p x.op := by
  unfold OpWithSimulation.op_with_replaced_sig
  cases x.simulation.aggregator <;> simp [opCostIf]

theorem bundleCost_to_ops_per_aggregator (p : Address) (c : ProposalContext) :
    bundleCost p c.to_ops_per_aggregator = groupsCost p c.groups_by_aggregator := by
  unfold bundleCost ProposalContext.to_ops_per_aggregator groupsCost opsCost
  simp [List.map_map, Function.comp_def, opCostIf_op_with_replaced_sig]

theorem groupsCost_lhmPushOp (p : Address) (gs : List (Option Address × AggregatorGroup))
    (k : Option Address) (x : OpWithSimulation) :
    groupsCost p (lhmPushOp gs k x) = groupsCost p gs + opCostIf p x.op := by
  induction gs with
  | nil => simp [lhmPushOp, groupsCost, opsCost]
  | cons e rest ih =>
    by_cases h : e.1 = k
    · simp [lhmPushOp, h, groupsCost, opsCost]
      ring
    · simp only [lhmPushOp, if_neg h, groupsCost, List.map_cons, List.sum_cons] at *
      rw [ih]
      ring

theorem groupsCost_sublist_le (p : Address)
    {gs gs' : List (Option Address × AggregatorGroup)} (h : List.Sublist gs' gs) :
    groupsCost p gs' ≤ groupsCost p gs :=
  List.Sublist.sum_le_sum (h.map _) (fun _ _ => Nat.zero_le _)

theorem groupsCost_lhmRemove_le (p : Address) (gs : List (Option Address × AggregatorGroup))
    (k : Option Address) : groupsCost p (lhmRemove gs k) ≤ groupsCost p gs :=
  groupsCost_sublist_le p (List.eraseP_sublist gs)

theorem groupsCost_lhmSetSig (p : Address) (gs : List (Option Address × AggregatorGroup))
    (k : Option Address) (sig : Bytes) :
    groupsCost p (lhmSetSig gs k sig) = groupsCost p gs := by
  unfold lhmSetSig groupsCost
  rw [List.map_map]
  congr 1
  apply List.map_congr_left
  intro e _
  by_cases h : e.1 = k <;> simp [h, opsCost]

theorem groupsCost_apply_sig_le (p : Address) (c : ProposalContext) (a : Address)
    (result : SigResult) :
    groupsCost p (c.apply_aggregation_signature_result a result).groups_by_aggregator
      ≤ groupsCost p c.groups_by_aggregator := by
  unfold ProposalContext.apply_aggregation_signature_result ProposalContext.reject_aggregator
  cases result with
  | okSome sig => simp [groupsCost_lhmSetSig]
  | okNone => exact groupsCost_lhmRemove_le p _ _
  | err => exact groupsCost_lhmRemove_le p _ _

theorem groupsCost_computeAggregatorSignatures_le (p : Address)
    (aggSig : Address → List UserOperation → SigResult) (c : ProposalContext)
    (aggregators : List Address) :
    groupsCost p (computeAggregatorSignatures aggSig c aggregators).groups_by_aggregator
      ≤ groupsCost p c.groups_by_aggregator := by
  unfold computeAggregatorSignatures
  generalize (aggregators.filterMap _) = signatures
  induction signatures generalizing c with
  | nil => simp
  | cons s rest ih =>
    exact le_trans (ih _) (groupsCost_apply_sig_le p c s.1 s.2)

theorem groupsCost_filterRejectAux_le (p : Address) (filter : UserOperation → Bool)
    (gs : List (Option Address × AggregatorGroup)) :
    groupsCost p (filterRejectAux filter gs).1 ≤ groupsCost p gs := by
  induction gs with
  | nil => simp [filterRejectAux]
  | cons e rest ih =>
    unfold filterRejectAux
    by_cases h : e.2.ops_with_simulations.any (fun o => filter o.op)
    · rw [if_pos h]
      by_cases hk : (e.2.ops_with_simulations.filter (fun o => ! filter o.op)).isEmpty
      · rw [if_pos hk]
        calc groupsCost p (filterRejectAux filter rest).1 ≤ groupsCost p rest := ih
          _ ≤ groupsCost p (e :: rest) := by simp [groupsCost]
      · rw [if_neg hk]
        simp only [groupsCost, List.map_cons, List.sum_cons]
        have hops : opsCost p (e.2.ops_with_simulations.filter (fun o => ! filter o.op))
            ≤ opsCost p e.2.ops_with_simulations :=
          List.Sublist.sum_le_sum ((List.filter_sublist _).map _) (fun _ _ => Nat.zero_le _)
        exact Nat.add_le_add hops ih
    · rw [if_neg h]
      simp only [groupsCost, List.map_cons, List.sum_cons]
      exact Nat.add_le_add_left ih _

theorem groupsCost_filter_reject_le (p : Address) (c : ProposalContext)
    (filter : UserOperation → Bool) :
    groupsCost p (c.filter_reject filter).1.groups_by_aggregator
      ≤ groupsCost p c.groups_by_aggregator :=
  groupsCost_filterRejectAux_le p filter c.groups_by_aggregator

theorem groupsCost_reject_entity_le (p : Address) (c : ProposalContext) (entity : Entity) :
    groupsCost p (c.reject_entity entity).1.groups_by_aggregator
      ≤ groupsCost p c.groups_by_aggregator := by
  unfold ProposalContext.reject_entity
  cases entity.kind with
  | aggregator => exact groupsCost_lhmRemove_le p _ _
  | paymaster => exact groupsCost_filter_reject_le p c _
  | factory => exact groupsCost_filter_reject_le p c _
  | account => exact le_refl _

theorem groupsCost_rejectIndexAux_le (p : Address)
    (gs : List (Option Address × AggregatorGroup)) (i : Nat)
    {out : List (Option Address × AggregatorGroup) × OpWithSimulation × Option (Option Address)}
    (h : rejectIndexAux gs i = some out) : groupsCost p out.1 ≤ groupsCost p gs := by
  induction gs generalizing i out with
  | nil => simp [rejectIndexAux] at h
  | cons e rest ih =>
    unfold rejectIndexAux at h
    by_cases hi : i < e.2.ops_with_simulations.length
    · rw [if_pos hi] at h
      match hg : e.2.ops_with_simulations.get? i with
      | none => rw [hg] at h; simp at h
      | some rejected =>
        rw [hg] at h
        simp only at h
        have herase : opsCost p (e.2.ops_with_simulations.eraseIdx i)
            ≤ opsCost p e.2.ops_with_simulations :=
          List.Sublist.sum_le_sum ((List.eraseIdx_sublist _ i).map _)
            (fun _ _ => Nat.zero_le _)
        by_cases hk : (e.2.ops_with_simulations.eraseIdx i).isEmpty
        · rw [if_pos hk, Option.some_inj] at h
          subst h
          simp [groupsCost]
        · rw [if_neg hk, Option.some_inj] at h
          subst h
          simp only [groupsCost, List.map_cons, List.sum_cons]
          exact Nat.add_le_add herase (le_refl _)
    · rw [if_neg hi, Option.map_eq_some'] at h
      obtain ⟨r, hr, hout⟩ := h
      subst hout
      simp only [groupsCost, List.map_cons, List.sum_cons]
      exact Nat.add_le_add_left (ih _ hr) _

theorem groupsCost_reject_index_le (p : Address) (c : ProposalContext) (i : Nat) :
    groupsCost p (c.reject_index i).1.groups_by_aggregator
      ≤ groupsCost p c.groups_by_aggregator := by
  unfold ProposalContext.reject_index
  match h : rejectIndexAux c.groups_by_aggregator i with
  | none => simp
  | some out =>
    simp only
    exact groupsCost_rejectIndexAux_le p _ i h

theorem groupsCost_process_failed_op_le (p : Address)
    (aggSig : Address → List UserOperation → SigResult) (c : ProposalContext)
    (index : Nat) (message : List Char) {c' : ProposalContext}
    (h : process_failed_op aggSig c index message = FailedOpOutcome.ok c') :
    groupsCost p c'.groups_by_aggregator ≤ groupsCost p c.groups_by_aggregator := by
  unfold process_failed_op at h
  match h4 : first4 message with
  | none => rw [h4] at h; simp at h
  | some m4 =>
    rw [h4] at h
    simp only at h
    by_cases hf : isFactoryCode m4
    · rw [if_pos hf] at h
      match hop : c.get_op_at index with
      | none => rw [hop] at h; simp at h
      | some op =>
        rw [hop] at h
        match hfa : op.factory with
        | none => simp [hfa] at h
        | some factory =>
          simp only [hfa, FailedOpOutcome.ok.injEq] at h
          subst h
          exact le_trans (groupsCost_computeAggregatorSignatures_le p aggSig _ _)
            (groupsCost_reject_entity_le p c _)
    · rw [if_neg hf] at h
      by_cases hpm : isPaymasterCode m4
      · rw [if_pos hpm] at h
        match hop : c.get_op_at index with
        | none => rw [hop] at h; simp at h
        | some op =>
          rw [hop] at h
          match hpa : op.paymaster with
          | none => simp [hpa] at h
          | some paymaster =>
            simp only [hpa, FailedOpOutcome.ok.injEq] at h
            subst h
            exact le_trans (groupsCost_computeAggregatorSignatures_le p aggSig _ _)
              (groupsCost_reject_entity_le p c _)
      · rw [if_neg hpm, FailedOpOutcome.ok.injEq] at h
        subst h
        exact le_trans (groupsCost_computeAggregatorSignatures_le p aggSig _ _)
          (groupsCost_reject_index_le p c index)

theorem make_bundle_loop_cost_le (p : Address)
    (aggSig : Address → List UserOperation → SigResult)
    (estimate : List UserOpsPerAggregator → HandleOpsOut)
    (mpf : Nat) (fuel : Nat) (c : ProposalContext) {b : Bundle}
    (h : make_bundle_loop aggSig estimate mpf fuel c = LoopResult.ok b) :
    bundleCost p b.ops_per_aggregator ≤ groupsCost p c.groups_by_aggregator := by
  induction fuel generalizing c b with
  | zero =>
    unfold make_bundle_loop at h
    by_cases he : c.is_empty
    · rw [if_pos he, LoopResult.ok.injEq] at h
      subst h
      simp [emptyExit, bundleCost]
    · rw [if_neg he] at h
      exact absurd h (by simp)
  | succ fuel ih =>
    unfold make_bundle_loop at h
    by_cases he : c.is_empty
    · rw [if_pos he, LoopResult.ok.injEq] at h
      subst h
      simp [emptyExit, bundleCost]
    · rw [if_neg he] at h
      match hest : estimate c.to_ops_per_aggregator with
      | HandleOpsOut.SuccessWithGas gas =>
        rw [hest] at h
        simp only [LoopResult.ok.injEq] at h
        subst h
        rw [bundleCost_to_ops_per_aggregator]
      | HandleOpsOut.FailedOp index message =>
        rw [hest] at h
        simp only at h
        match hp : process_failed_op aggSig c index message with
        | FailedOpOutcome.ok c' =>
          rw [hp] at h
          exact le_trans (ih _ h) (groupsCost_process_failed_op_le p aggSig c index message hp)
        | FailedOpOutcome.errored => rw [hp] at h; simp at h
        | FailedOpOutcome.panicked => rw [hp] at h; simp at h
      | HandleOpsOut.SignatureValidationFailed aggregator =>
        rw [hest] at h
        simp only at h
        refine le_trans (ih _ h) ?_
        exact le_trans (groupsCost_computeAggregatorSignatures_le p aggSig _ _)
          (groupsCost_reject_entity_le p c _)

/-! ### The deposit invariant of assemble_context -/

/-- Invariant of the for-loop of assemble_context: for a paymaster whose
deposit was fetched, the cost charged to it so far plus its remaining
running balance stays within the fetched deposit; a paymaster with no
fetched deposit is never charged. -/
def AssembleInv (init : Address → Option Nat) (st : AssembleState) : Prop :=
  ∀ p : Address,
    (∀ d0, init p = some d0 → ∃ d, st.balances p = some d ∧
        groupsCost p st.groups_by_aggregator + d ≤ d0) ∧
    (init p = none → st.balances p = none ∧ groupsCost p st.groups_by_aggregator = 0)

theorem assembleStep_inv (init : Address → Option Nat) (all_sender_addresses : List Address)
    (st : AssembleState) (x : UserOperation × Option SimulationSuccess)
    (h : AssembleInv init st) : AssembleInv init (assembleStep all_sender_addresses st x) := by
  obtain ⟨op1, sim2⟩ := x
  cases sim2 with
  | none => exact h
  | some simulation =>
    dsimp only [assembleStep]
    by_cases hacc : simulation.accessed_addresses.any
        (fun address => decide (address ≠ op1.sender) && all_sender_addresses.contains address)
    · rw [if_pos hacc]
      exact h
    · rw [if_neg hacc]
      cases hpm : op1.paymaster with
      | some paymaster =>
        dsimp only
        cases hb : st.balances paymaster with
        | none => exact h
        | some balance =>
          dsimp only
          by_cases hlt : balance < op1.max_gas_cost
          · rw [if_pos hlt]
            exact h
          · rw [if_neg hlt]
            intro p
            simp only [groupsCost_lhmPushOp]
            constructor
            · intro d0 hinit
              obtain ⟨d, hd, hle⟩ := (h p).1 d0 hinit
              by_cases hpp : p = paymaster
              · subst hpp
                rw [hb] at hd
                cases hd
                refine ⟨balance - op1.max_gas_cost, by simp, ?_⟩
                have hcost : opCostIf p op1 = op1.max_gas_cost := by
                  simp [opCostIf, hpm]
                rw [hcost]
                omega
              · refine ⟨d, ?_, ?_⟩
                · simp only [if_neg hpp]
                  exact hd
                · have hcost : opCostIf p op1 = 0 := by
                    simp only [opCostIf, hpm]
                    rw [if_neg]
                    intro hc
                    exact hpp (Option.some_inj.mp hc).symm
                  omega
            · intro hinit
              obtain ⟨hbn, hc0⟩ := (h p).2 hinit
              by_cases hpp : p = paymaster
              · subst hpp
                rw [hb] at hbn
                cases hbn
              · refine ⟨by simp only [if_neg hpp]; exact hbn, ?_⟩
                have hcost : opCostIf p op1 = 0 := by
                  simp only [opCostIf, hpm]
                  rw [if_neg]
                  intro hc
                  exact hpp (Option.some_inj.mp hc).symm
                omega
      | none =>
        dsimp only
        intro p
        have hcost : opCostIf p op1 = 0 := by simp [opCostIf, hpm]
        constructor
        · intro d0 hinit
          obtain ⟨d, hd, hle⟩ := (h p).1 d0 hinit
          refine ⟨d, hd, ?_⟩
          simp only [groupsCost_lhmPushOp, hcost]
          omega
        · intro hinit
          obtain ⟨hbn, hc0⟩ := (h p).2 hinit
          refine ⟨hbn, ?_⟩
          simp only [groupsCost_lhmPushOp, hcost]
          omega

theorem assembleFold_inv (init : Address → Option Nat) (all_sender_addresses : List Address)
    (ops : List (UserOperation × Option SimulationSuccess)) (st : AssembleState)
    (h : AssembleInv init st) :
    AssembleInv init (ops.foldl (assembleStep all_sender_addresses) st) := by
  induction ops generalizing st with
  | nil => exact h
  | cons x rest ih =>
    exact ih _ (assembleStep_inv init all_sender_addresses st x h)

theorem groupsCost_reject_entity_foldl_le (p : Address) (paymasters : List Address)
    (c : ProposalContext) :
    groupsCost p ((paymasters.foldl
        (fun c paymaster => (c.reject_entity (Entity.paymaster paymaster)).1) c)).groups_by_aggregator
      ≤ groupsCost p c.groups_by_aggregator := by
  induction paymasters generalizing c with
  | nil => exact le_refl _
  | cons q rest ih =>
    exact le_trans (ih _) (groupsCost_reject_entity_le p c (Entity.paymaster q))

/-- The cost charged to any paymaster by the assembled context is at most
the balance fetched for it (and 0 if none was fetched). -/
theorem groupsCost_assemble_context_le (p : Address)
    (aggSig : Address → List UserOperation → SigResult)
    (ops_with_simulations : List (UserOperation × Option SimulationSuccess))
    (balances : Address → Option Nat) :
    groupsCost p (assemble_context aggSig ops_with_simulations balances).groups_by_aggregator
      ≤ (balances p).getD 0 := by
  unfold assemble_context
  have hinv : AssembleInv balances
      (ops_with_simulations.foldl
        (assembleStep (ops_with_simulations.map (fun x => x.1.sender)))
        { groups_by_aggregator := []
          rejected_ops := []
          paymasters_to_reject := []
          balances := balances }) := by
    apply assembleFold_inv
    intro q
    constructor
    · intro d0 hinit
      exact ⟨d0, hinit, by simp [groupsCost]⟩
    · intro hinit
      exact ⟨hinit, by simp [groupsCost]⟩
  set st := ops_with_simulations.foldl
    (assembleStep (ops_with_simulations.map (fun x => x.1.sender)))
    { groups_by_aggregator := []
      rejected_ops := []
      paymasters_to_reject := []
      balances := balances } with hst
  have hbound : groupsCost p st.groups_by_aggregator ≤ (balances p).getD 0 := by
    match hb : balances p with
    | some d0 =>
      obtain ⟨d, _, hle⟩ := (hinv p).1 d0 hb
      simpa using Nat.le_trans (Nat.le_add_right _ d) hle
    | none =>
      simp [(hinv p).2 hb]
  refine le_trans (groupsCost_computeAggregatorSignatures_le p aggSig _ _) ?_
  exact le_trans (groupsCost_reject_entity_foldl_le p _ _) hbound

/-- C1: for every bundle returned by make_bundle with a non-empty
ops_per_aggregator, and for every paymaster referenced by some op in that
bundle, the total max_gas_cost of the bundle's ops sponsored by that
paymaster is at most that paymaster's deposit as fetched from the entry
point (get_deposit, queried at the selection block hash). -/
theorem C1_bundle_paymaster_deposit_bound (settings : ProposerSettings)
    (aggSig : Address → List UserOperation → SigResult)
    (estimate : List UserOpsPerAggregator → HandleOpsOut)
    (get_deposit : Address → Nat) (pool_ops : List OpFromPool)
    (quoted_max_priority_fee fuel : Nat) (b : Bundle) (p : Address)
    (hok : make_bundle settings aggSig estimate get_deposit pool_ops
        quoted_max_priority_fee fuel = LoopResult.ok b)
    (_hne : b.ops_per_aggregator ≠ [])
    (_hp : ∃ u ∈ b.ops_per_aggregator, ∃ op ∈ u.user_ops, op.paymaster = some p) :
    bundleCost p b.ops_per_aggregator ≤ get_deposit p := by
  unfold make_bundle at hok
  have h1 := make_bundle_loop_cost_le p aggSig estimate
    (bundleMaxPriorityFee settings quoted_max_priority_fee) fuel
    (makeBundleContext settings aggSig get_deposit pool_ops quoted_max_priority_fee) hok
  have h2 := groupsCost_assemble_context_le p aggSig
    ((bundleFeeFiltered settings pool_ops quoted_max_priority_fee).filterMap simulate_validation)
    (balances_by_paymaster get_deposit pool_ops)
  have h3 : ((balances_by_paymaster get_deposit pool_ops) p).getD 0 ≤ get_deposit p := by
    unfold balances_by_paymaster
    by_cases hc : (pool_ops.filterMap (fun x => x.op.paymaster)).contains p
    · rw [if_pos hc]
      simp
    · rw [if_neg hc]
      simp
  exact le_trans h1 (le_trans h2 h3)

/-! ### Effects of the rejection helpers on the group list -/

/-- No op in the group list satisfies the given filter. -/
def GroupsNoOp (filter : UserOperation → Bool) (gs : List (Option Address × AggregatorGroup)) :
    Prop :=
  ∀ e ∈ gs, ∀ o ∈ e.2.ops_with_simulations, filter o.op = false

theorem GroupsNoOp_of_sublist {filter : UserOperation → Bool}
    {gs gs' : List (Option Address × AggregatorGroup)} (hsub : List.Sublist gs' gs)
    (h : GroupsNoOp filter gs) : GroupsNoOp filter gs' :=
  fun e he o ho => h e (hsub.subset he) o ho

theorem GroupsNoOp_lhmSetSig {filter : UserOperation → Bool}
    {gs : List (Option Address × AggregatorGroup)} (k : Option Address) (sig : Bytes)
    (h : GroupsNoOp filter gs) : GroupsNoOp filter (lhmSetSig gs k sig) := by
  intro e he o ho
  unfold lhmSetSig at he
  obtain ⟨e0, he0, heq⟩ := List.mem_map.mp he
  by_cases hk : e0.1 = k
  · rw [if_pos hk] at heq
    subst heq
    exact h e0 he0 o ho
  · rw [if_neg hk] at heq
    subst heq
    exact h e0 he0 o ho

theorem GroupsNoOp_apply_sig {filter : UserOperation → Bool} {c : ProposalContext}
    (a : Address) (result : SigResult) (h : GroupsNoOp filter c.groups_by_aggregator) :
    GroupsNoOp filter (c.apply_aggregation_signature_result a result).groups_by_aggregator := by
  unfold ProposalContext.apply_aggregation_signature_result ProposalContext.reject_aggregator
  cases result with
  | okSome sig => exact GroupsNoOp_lhmSetSig _ _ h
  | okNone => exact GroupsNoOp_of_sublist (List.eraseP_sublist _) h
  | err => exact GroupsNoOp_of_sublist (List.eraseP_sublist _) h

theorem GroupsNoOp_computeAggregatorSignatures {filter : UserOperation → Bool}
    (aggSig : Address → List UserOperation → SigResult) {c : ProposalContext}
    (aggregators : List Address) (h : GroupsNoOp filter c.groups_by_aggregator) :
    GroupsNoOp filter (computeAggregatorSignatures aggSig c aggregators).groups_by_aggregator := by
  unfold computeAggregatorSignatures
  generalize (aggregators.filterMap _) = signatures
  induction signatures generalizing c with
  | nil => exact h
  | cons s rest ih => exact ih (GroupsNoOp_apply_sig s.1 s.2 h)

/-- filter_reject leaves no op matching the filter in the group list. -/
theorem GroupsNoOp_filterRejectAux (filter : UserOperation → Bool)
    (gs : List (Option Address × AggregatorGroup)) :
    GroupsNoOp filter (filterRejectAux filter gs).1 := by
  induction gs with
  | nil => intro e he; simp [filterRejectAux] at he
  | cons e rest ih =>
    intro e' he' o ho
    unfold filterRejectAux at he'
    by_cases h : e.2.ops_with_simulations.any (fun o => filter o.op)
    · rw [if_pos h] at he'
      by_cases hk : (e.2.ops_with_simulations.filter (fun o => ! filter o.op)).isEmpty
      · rw [if_pos hk] at he'
        exact ih e' he' o ho
      · rw [if_neg hk] at he'
        rcases List.mem_cons.mp he' with heq | hmem
        · subst heq
          have hmemf := List.of_mem_filter ho
          simpa using hmemf
        · exact ih e' hmem o ho
    · rw [if_neg h] at he'
      rcases List.mem_cons.mp he' with heq | hmem
      · subst heq
        cases hfo : filter o.op with
        | false => rfl
        | true => exact absurd (List.any_eq_true.mpr ⟨o, ho, hfo⟩) h
      · exact ih e' hmem o ho

/-- Neither compute_aggregator_signatures nor
apply_aggregation_signature_result touch the rejected lists. -/
theorem computeAggregatorSignatures_rejected (aggSig : Address → List UserOperation → SigResult)
    (c : ProposalContext) (aggregators : List Address) :
    (computeAggregatorSignatures aggSig c aggregators).rejected_ops = c.rejected_ops
      ∧ (computeAggregatorSignatures aggSig c aggregators).rejected_entities
          = c.rejected_entities := by
  unfold computeAggregatorSignatures
  generalize (aggregators.filterMap _) = signatures
  induction signatures generalizing c with
  | nil => exact ⟨rfl, rfl⟩
  | cons s rest ih =>
    have happly : (c.apply_aggregation_signature_result s.1 s.2).rejected_ops = c.rejected_ops
        ∧ (c.apply_aggregation_signature_result s.1 s.2).rejected_entities
            = c.rejected_entities := by
      unfold ProposalContext.apply_aggregation_signature_result
        ProposalContext.reject_aggregator
      cases s.2 <;> exact ⟨rfl, rfl⟩
    obtain ⟨h1, h2⟩ := ih (c.apply_aggregation_signature_result s.1 s.2)
    exact ⟨h1.trans happly.1, h2.trans happly.2⟩

/-- rejectIndexAux removes exactly the op that get_op_at finds. -/
theorem rejectIndexAux_of_getOpAt {gs : List (Option Address × AggregatorGroup)} {i : Nat}
    {op : UserOperation} (h : getOpAtAux gs i = some op) :
    ∃ out, rejectIndexAux gs i = some out ∧ out.2.1.op = op := by
  induction gs generalizing i with
  | nil => simp [getOpAtAux] at h
  | cons e rest ih =>
    unfold getOpAtAux at h
    unfold rejectIndexAux
    by_cases hi : i < e.2.ops_with_simulations.length
    · rw [if_pos hi] at h
      rw [if_pos hi]
      obtain ⟨rj, hrj, hrjop⟩ := Option.map_eq_some'.mp h
      rw [hrj]
      dsimp only
      by_cases hk : (e.2.ops_with_simulations.eraseIdx i).isEmpty
      · rw [if_pos hk]
        exact ⟨_, rfl, hrjop⟩
      · rw [if_neg hk]
        exact ⟨_, rfl, hrjop⟩
    · rw [if_neg hi] at h
      rw [if_neg hi]
      obtain ⟨out, hout, hop⟩ := ih h
      rw [hout]
      exact ⟨_, rfl, hop⟩

/-- reject_entity on a factory entity, unfolded. -/
theorem reject_entity_factory (c : ProposalContext) (f : Address) :
    c.reject_entity (Entity.factory f)
      = ({ groups_by_aggregator :=
             (filterRejectAux (fun op => decide (op.factory = some f)) c.groups_by_aggregator).1
           rejected_ops := c.rejected_ops
           rejected_entities := c.rejected_entities ++ [Entity.factory f] },
         (filterRejectAux (fun op => decide (op.factory = some f)) c.groups_by_aggregator).2) :=
  rfl

/-- reject_entity on a paymaster entity, unfolded. -/
theorem reject_entity_paymaster (c : ProposalContext) (pm : Address) :
    c.reject_entity (Entity.paymaster pm)
      = ({ groups_by_aggregator :=
             (filterRejectAux (fun op => decide (op.paymaster = some pm)) c.groups_by_aggregator).1
           rejected_ops := c.rejected_ops
           rejected_entities := c.rejected_entities ++ [Entity.paymaster pm] },
         (filterRejectAux (fun op => decide (op.paymaster = some pm)) c.groups_by_aggregator).2) :=
  rfl

/-- C4: classification of FailedOp(index, message) by the gas-estimation
loop.  When the first four characters of the message are AA13, AA14 or
AA15, the factory entity of the op at index is rejected and every op using
that factory leaves the context; when they are AA30, AA31, AA33 or AA34,
the op's paymaster entity is rejected likewise; for any other message
(including AA32) exactly the single op at index is appended to
rejected_ops (and no entity is rejected); and after an ok rejection the
loop retries gas estimation with the mutated context. -/
theorem C4_failed_op_classification
    (aggSig : Address → List UserOperation → SigResult)
    (estimate : List UserOpsPerAggregator → HandleOpsOut)
    (mpf fuel : Nat) (c : ProposalContext) (index : Nat) (message : List Char)
    (op : UserOperation) (m4 : List Char)
    (hop : c.get_op_at index = some op)
    (h4 : first4 message = some m4) :
    (∀ f, isFactoryCode m4 = true → op.factory = some f →
      ∃ c', process_failed_op aggSig c index message = FailedOpOutcome.ok c'
        ∧ c'.rejected_entities = c.rejected_entities ++ [Entity.factory f]
        ∧ c'.rejected_ops = c.rejected_ops
        ∧ (∀ e ∈ c'.groups_by_aggregator, ∀ o ∈ e.2.ops_with_simulations,
            o.op.factory ≠ some f))
    ∧ (∀ pm, isFactoryCode m4 = false → isPaymasterCode m4 = true → op.paymaster = some pm →
      ∃ c', process_failed_op aggSig c index message = FailedOpOutcome.ok c'
        ∧ c'.rejected_entities = c.rejected_entities ++ [Entity.paymaster pm]
        ∧ c'.rejected_ops = c.rejected_ops
        ∧ (∀ e ∈ c'.groups_by_aggregator, ∀ o ∈ e.2.ops_with_simulations,
            o.op.paymaster ≠ some pm))
    ∧ (isFactoryCode m4 = false → isPaymasterCode m4 = false →
      ∃ c', process_failed_op aggSig c index message = FailedOpOutcome.ok c'
        ∧ c'.rejected_ops = c.rejected_ops ++ [op]
        ∧ c'.rejected_entities = c.rejected_entities)
    ∧ (∀ c', c.is_empty = false →
        estimate c.to_ops_per_aggregator = HandleOpsOut.FailedOp index message →
        process_failed_op aggSig c index message = FailedOpOutcome.ok c' →
        make_bundle_loop aggSig estimate mpf (fuel + 1) c
          = make_bundle_loop aggSig estimate mpf fuel c') := by
  refine ⟨?_, ?_, ?_, ?_⟩
  · intro f hf hfac
    refine ⟨computeAggregatorSignatures aggSig (c.reject_entity (Entity.factory f)).1
      (c.reject_entity (Entity.factory f)).2, ?_, ?_, ?_, ?_⟩
    · unfold process_failed_op
      rw [h4]
      dsimp only
      rw [if_pos hf, hop]
      dsimp only
      rw [hfac]
    · rw [(computeAggregatorSignatures_rejected aggSig _ _).2, reject_entity_factory]
    · rw [(computeAggregatorSignatures_rejected aggSig _ _).1, reject_entity_factory]
    · intro e he o ho
      have hno : GroupsNoOp (fun op => decide (op.factory = some f))
          (computeAggregatorSignatures aggSig (c.reject_entity (Entity.factory f)).1
            (c.reject_entity (Entity.factory f)).2).groups_by_aggregator := by
        apply GroupsNoOp_computeAggregatorSignatures
        rw [reject_entity_factory]
        exact GroupsNoOp_filterRejectAux _ _
      have := hno e he o ho
      simpa using this
  · intro pm hf hpmc hpa
    refine ⟨computeAggregatorSignatures aggSig (c.reject_entity (Entity.paymaster pm)).1
      (c.reject_entity (Entity.paymaster pm)).2, ?_, ?_, ?_, ?_⟩
    · unfold process_failed_op
      rw [h4]
      dsimp only
      rw [if_neg (by simp [hf]), if_pos hpmc, hop]
      dsimp only
      rw [hpa]
    · rw [(computeAggregatorSignatures_rejected aggSig _ _).2, reject_entity_paymaster]
    · rw [(computeAggregatorSignatures_rejected aggSig _ _).1, reject_entity_paymaster]
    · intro e he o ho
      have hno : GroupsNoOp (fun op => decide (op.paymaster = some pm))
          (computeAggregatorSignatures aggSig (c.reject_entity (Entity.paymaster pm)).1
            (c.reject_entity (Entity.paymaster pm)).2).groups_by_aggregator := by
        apply GroupsNoOp_computeAggregatorSignatures
        rw [reject_entity_paymaster]
        exact GroupsNoOp_filterRejectAux _ _
      have := hno e he o ho
      simpa using this
  · intro hf hpmc
    obtain ⟨out, hout, houtop⟩ := rejectIndexAux_of_getOpAt (hop : getOpAtAux _ index = some op)
    refine ⟨computeAggregatorSignatures aggSig (c.reject_index index).1
      (c.reject_index index).2.toList, ?_, ?_, ?_⟩
    · unfold process_failed_op
      rw [h4]
      dsimp only
      rw [if_neg (by simp [hf]), if_neg (by simp [hpmc])]
    · rw [(computeAggregatorSignatures_rejected aggSig _ _).1]
      unfold ProposalContext.reject_index
      rw [hout]
      dsimp only
      rw [houtop]
    · rw [(computeAggregatorSignatures_rejected aggSig _ _).2]
      unfold ProposalContext.reject_index
      rw [hout]
  · intro c' hce hest hproc
    conv_lhs => unfold make_bundle_loop
    rw [if_neg (by simp [hce]), hest]
    dsimp only
    rw [hproc]

/-- Concrete data for exercising the C4 classification: one group of two
ops, both deployed through factory 5. -/
def c4OpA : UserOperation := ⟨1, 0, none, some 5, 10, 0, []⟩

def c4OpB : UserOperation := ⟨2, 0, none, some 5, 10, 0, []⟩

def c4Sim : SimulationSuccess := ⟨false, true, [], none⟩

def c4Ctx : ProposalContext :=
  ⟨[(none, ⟨[⟨c4OpA, c4Sim⟩, ⟨c4OpB, c4Sim⟩], []⟩)], [], []⟩

/-- Witness for C4: an AA13 failure at index 0 rejects factory 5 and
removes both ops using it. -/
theorem C4_failed_op_classification_witness :
    c4Ctx.get_op_at 0 = some c4OpA
      ∧ first4 ['A', 'A', '1', '3', ':'] = some ['A', 'A', '1', '3']
      ∧ ∃ c', process_failed_op (fun _ _ => SigResult.okSome []) c4Ctx 0
            ['A', 'A', '1', '3', ':'] = FailedOpOutcome.ok c'
          ∧ c'.rejected_entities = c4Ctx.rejected_entities ++ [Entity.factory 5]
          ∧ c'.rejected_ops = c4Ctx.rejected_ops
          ∧ (∀ e ∈ c'.groups_by_aggregator, ∀ o ∈ e.2.ops_with_simulations,
              o.op.factory ≠ some 5) :=
  ⟨by decide, by decide,
   (C4_failed_op_classification (fun _ _ => SigResult.okSome [])
       (fun _ => HandleOpsOut.SuccessWithGas 0) 0 0 c4Ctx 0 ['A', 'A', '1', '3', ':']
       c4OpA ['A', 'A', '1', '3'] (by decide) (by decide)).1 5 (by decide) (by decide)⟩

/-! ### C6: aggregate_signatures returning Ok(None) -/

/-- Concrete context for the C6 counterexample: a single group keyed by
aggregator 7 holding one op. -/
def c6Op : UserOperation := ⟨1, 0, none, none, 10, 0, []⟩

def c6Sim : SimulationSuccess := ⟨false, true, [], some ⟨7, [1]⟩⟩

def c6Ctx : ProposalContext := ⟨[(some 7, ⟨[⟨c6Op, c6Sim⟩], []⟩)], [], []⟩

/-- Counterexample to C6 as stated: when aggregate_signatures returns
Ok(None) for aggregator 7, the whole group is removed from the context,
but the aggregator entity is NOT added to rejected_entities (and its ops
are not added to rejected_ops) — reject_aggregator only deletes the map
entry, unlike reject_entity. -/
theorem C6_ok_none_no_eject_counterexample :
    (c6Ctx.apply_aggregation_signature_result 7 SigResult.okNone).groups_by_aggregator = []
      ∧ Entity.aggregator 7
          ∉ (c6Ctx.apply_aggregation_signature_result 7 SigResult.okNone).rejected_entities
      ∧ (c6Ctx.apply_aggregation_signature_result 7 SigResult.okNone).rejected_entities = []
      ∧ (c6Ctx.apply_aggregation_signature_result 7 SigResult.okNone).rejected_ops = [] := by
  decide

/-- C6 amended: an Ok(None) signature-aggregation result removes the
aggregator's group exactly like a provider error does — in both cases the
group is deleted from the context and nothing is added to
rejected_entities or rejected_ops.  (The aggregator entity is only pushed
to rejected_entities via reject_entity, on the SignatureValidationFailed
path of gas estimation.) -/
theorem C6_ok_none_behaves_like_error (c : ProposalContext) (a : Address) :
    c.apply_aggregation_signature_result a SigResult.okNone
        = { c with groups_by_aggregator := lhmRemove c.groups_by_aggregator (some a) }
      ∧ c.apply_aggregation_signature_result a SigResult.err
        = { c with groups_by_aggregator := lhmRemove c.groups_by_aggregator (some a) } :=
  ⟨rfl, rfl⟩

/-! ### C10: the unguarded message slice -/

/-- process_failed_op panics exactly on messages shorter than four
bytes (the unguarded &message[..4] slice). -/
theorem process_failed_op_panicked_iff (aggSig : Address → List UserOperation → SigResult)
    (c : ProposalContext) (index : Nat) (message : List Char) :
    process_failed_op aggSig c index message = FailedOpOutcome.panicked
      ↔ message.length < 4 := by
  unfold process_failed_op first4
  by_cases hlen : message.length < 4
  · rw [if_pos hlen]
    simpa using hlen
  · rw [if_neg hlen]
    dsimp only
    constructor
    · intro h
      exfalso
      by_cases hf : isFactoryCode (message.take 4)
      · rw [if_pos hf] at h
        cases hop : c.get_op_at index with
        | none => rw [hop] at h; simp at h
        | some op =>
          rw [hop] at h
          dsimp only at h
          cases hfa : op.factory with
          | none => rw [hfa] at h; simp at h
          | some f => rw [hfa] at h; simp at h
      · rw [if_neg hf] at h
        by_cases hpm : isPaymasterCode (message.take 4)
        · rw [if_pos hpm] at h
          cases hop : c.get_op_at index with
          | none => rw [hop] at h; simp at h
          | some op =>
            rw [hop] at h
            dsimp only at h
            cases hpa : op.paymaster with
            | none => rw [hpa] at h; simp at h
            | some pm => rw [hpa] at h; simp at h
        · rw [if_neg hpm] at h
          simp at h
    · intro h
      exact absurd h hlen

/-- C10's concrete input: one pool op, and an entry point that reports
FailedOp(0, "AA1") — a three-byte revert message. -/
def c10Op : UserOperation := ⟨1, 0, none, none, 10, 0, []⟩

def c10Pool : List OpFromPool := [⟨c10Op, SimOutcome.success ⟨false, true, [], none⟩⟩]

/-- C10: the FailedOp classification slices the message with no length
guard.  For every message of at least four characters the classification
is total (it never panics); and on the concrete FailedOp(0, "AA1") —
a message shorter than four bytes — make_bundle panics instead of
returning an error or rejecting the op. -/
theorem C10_message_slice_panics :
    (∀ (aggSig : Address → List UserOperation → SigResult) (c : ProposalContext)
        (index : Nat) (message : List Char), 4 ≤ message.length →
        process_failed_op aggSig c index message ≠ FailedOpOutcome.panicked)
      ∧ make_bundle ⟨10, 124, false, 10⟩ (fun _ _ => SigResult.okSome [])
          (fun _ => HandleOpsOut.FailedOp 0 ['A', 'A', '1']) (fun _ => 100) c10Pool 0 1
          = LoopResult.panicked := by
  constructor
  · intro aggSig c index message hlen h
    rw [process_failed_op_panicked_iff] at h
    omega
  · decide

/-- Witness for C10's universally quantified part, at the four-byte
message "AA32". -/
theorem C10_message_slice_panics_witness :
    4 ≤ (['A', 'A', '3', '2'] : List Char).length
      ∧ process_failed_op (fun _ _ => SigResult.okSome []) ⟨[], [], []⟩ 0 ['A', 'A', '3', '2']
          ≠ FailedOpOutcome.panicked :=
  ⟨by decide,
   C10_message_slice_panics.1 (fun _ _ => SigResult.okSome []) ⟨[], [], []⟩ 0
     ['A', 'A', '3', '2'] (by decide)⟩

/-! ### C8: termination of the gas-estimation loop -/

/-- Total number of ops held in a group list. -/
def opCount (gs : List (Option Address × AggregatorGroup)) : Nat :=
  (gs.map (fun e => e.2.ops_with_simulations.length)).sum

/-- Every group in the list is nonempty (an invariant of make_bundle's
contexts: groups are created by pushing an op, and every helper deletes a
group it empties). -/
def GroupsNonempty (gs : List (Option Address × AggregatorGroup)) : Prop :=
  ∀ e ∈ gs, e.2.ops_with_simulations ≠ []

theorem opCount_sublist_le {gs gs' : List (Option Address × AggregatorGroup)}
    (h : List.Sublist gs' gs) : opCount gs' ≤ opCount gs :=
  List.Sublist.sum_le_sum (h.map _) (fun _ _ => Nat.zero_le _)

theorem opCount_lhmSetSig (gs : List (Option Address × AggregatorGroup))
    (k : Option Address) (sig : Bytes) : opCount (lhmSetSig gs k sig) = opCount gs := by
  unfold lhmSetSig opCount
  rw [List.map_map]
  congr 1
  apply List.map_congr_left
  intro e _
  by_cases h : e.1 = k <;> simp [h]

theorem opCount_apply_sig_le (c : ProposalContext) (a : Address) (result : SigResult) :
    opCount (c.apply_aggregation_signature_result a result).groups_by_aggregator
      ≤ opCount c.groups_by_aggregator := by
  unfold ProposalContext.apply_aggregation_signature_result ProposalContext.reject_aggregator
  cases result with
  | okSome sig => simp [opCount_lhmSetSig]
  | okNone => exact opCount_sublist_le (List.eraseP_sublist _)
  | err => exact opCount_sublist_le (List.eraseP_sublist _)

theorem opCount_computeAggregatorSignatures_le
    (aggSig : Address → List UserOperation → SigResult) (c : ProposalContext)
    (aggregators : List Address) :
    opCount (computeAggregatorSignatures aggSig c aggregators).groups_by_aggregator
      ≤ opCount c.groups_by_aggregator := by
  unfold computeAggregatorSignatures
  generalize (aggregators.filterMap _) = signatures
  induction signatures generalizing c with
  | nil => simp
  | cons s rest ih => exact le_trans (ih _) (opCount_apply_sig_le c s.1 s.2)

theorem GroupsNonempty_of_sublist {gs gs' : List (Option Address × AggregatorGroup)}
    (hsub : List.Sublist gs' gs) (h : GroupsNonempty gs) : GroupsNonempty gs' :=
  fun e he => h e (hsub.subset he)

theorem GroupsNonempty_lhmSetSig {gs : List (Option Address × AggregatorGroup)}
    (k : Option Address) (sig : Bytes) (h : GroupsNonempty gs) :
    GroupsNonempty (lhmSetSig gs k sig) := by
  intro e he
  unfold lhmSetSig at he
  obtain ⟨e0, he0, heq⟩ := List.mem_map.mp he
  by_cases hk : e0.1 = k
  · rw [if_pos hk] at heq
    subst heq
    exact h e0 he0
  · rw [if_neg hk] at heq
    subst heq
    exact h e0 he0

theorem GroupsNonempty_apply_sig {c : ProposalContext} (a : Address) (result : SigResult)
    (h : GroupsNonempty c.groups_by_aggregator) :
    GroupsNonempty (c.apply_aggregation_signature_result a result).groups_by_aggregator := by
  unfold ProposalContext.apply_aggregation_signature_result ProposalContext.reject_aggregator
  cases result with
  | okSome sig => exact GroupsNonempty_lhmSetSig _ _ h
  | okNone => exact GroupsNonempty_of_sublist (List.eraseP_sublist _) h
  | err => exact GroupsNonempty_of_sublist (List.eraseP_sublist _) h

theorem GroupsNonempty_computeAggregatorSignatures
    (aggSig : Address → List UserOperation → SigResult) {c : ProposalContext}
    (aggregators : List Address) (h : GroupsNonempty c.groups_by_aggregator) :
    GroupsNonempty
      (computeAggregatorSignatures aggSig c aggregators).groups_by_aggregator := by
  unfold computeAggregatorSignatures
  generalize (aggregators.filterMap _) = signatures
  induction signatures generalizing c with
  | nil => exact h
  | cons s rest ih => exact ih (GroupsNonempty_apply_sig s.1 s.2 h)

theorem GroupsNonempty_filterRejectAux (filter : UserOperation → Bool)
    {gs : List (Option Address × AggregatorGroup)} (h : GroupsNonempty gs) :
    GroupsNonempty (filterRejectAux filter gs).1 := by
  induction gs with
  | nil => intro e he; simp [filterRejectAux] at he
  | cons e rest ih =>
    have hrest : GroupsNonempty rest := fun e' he' => h e' (List.mem_cons_of_mem _ he')
    intro e' he'
    unfold filterRejectAux at he'
    by_cases hany : e.2.ops_with_simulations.any (fun o => filter o.op)
    · rw [if_pos hany] at he'
      by_cases hk : (e.2.ops_with_simulations.filter (fun o => ! filter o.op)).isEmpty
      · rw [if_pos hk] at he'
        exact ih hrest e' he'
      · rw [if_neg hk] at he'
        rcases List.mem_cons.mp he' with heq | hmem
        · subst heq
          intro hcontra
          dsimp only at hcontra
          exact hk (by rw [hcontra]; rfl)
        · exact ih hrest e' hmem
    · rw [if_neg hany] at he'
      rcases List.mem_cons.mp he' with heq | hmem
      · rw [heq]
        exact h e (List.mem_cons_self _ _)
      · exact ih hrest e' hmem

theorem GroupsNonempty_rejectIndexAux {gs : List (Option Address × AggregatorGroup)} {i : Nat}
    {out : List (Option Address × AggregatorGroup) × OpWithSimulation × Option (Option Address)}
    (hout : rejectIndexAux gs i = some out) (h : GroupsNonempty gs) :
    GroupsNonempty out.1 := by
  induction gs generalizing i out with
  | nil => simp [rejectIndexAux] at hout
  | cons e rest ih =>
    have hrest : GroupsNonempty rest := fun e' he' => h e' (List.mem_cons_of_mem _ he')
    unfold rejectIndexAux at hout
    by_cases hi : i < e.2.ops_with_simulations.length
    · rw [if_pos hi] at hout
      match hg : e.2.ops_with_simulations.get? i with
      | none => rw [hg] at hout; simp at hout
      | some rejected =>
        rw [hg] at hout
        dsimp only at hout
        by_cases hk : (e.2.ops_with_simulations.eraseIdx i).isEmpty
        · rw [if_pos hk, Option.some_inj] at hout
          subst hout
          exact hrest
        · rw [if_neg hk, Option.some_inj] at hout
          subst hout
          intro e' he'
          rcases List.mem_cons.mp he' with heq | hmem
          · subst heq
            intro hcontra
            dsimp only at hcontra
            exact hk (by rw [hcontra]; rfl)
          · exact hrest e' hmem
    · rw [if_neg hi, Option.map_eq_some'] at hout
      obtain ⟨r, hr, heq⟩ := hout
      subst heq
      intro e' he'
      rcases List.mem_cons.mp he' with heq | hmem
      · rw [heq]
        exact h e (List.mem_cons_self _ _)
      · exact ih hr hrest e' hmem

theorem opCount_cons (e : Option Address × AggregatorGroup)
    (rest : List (Option Address × AggregatorGroup)) :
    opCount (e :: rest) = e.2.ops_with_simulations.length + opCount rest := by
  simp [opCount]

theorem opCount_filterRejectAux_le (filter : UserOperation → Bool)
    (gs : List (Option Address × AggregatorGroup)) :
    opCount (filterRejectAux filter gs).1 ≤ opCount gs := by
  induction gs with
  | nil => simp [filterRejectAux]
  | cons e rest ih =>
    unfold filterRejectAux
    by_cases hany : e.2.ops_with_simulations.any (fun o => filter o.op)
    · rw [if_pos hany]
      by_cases hk : (e.2.ops_with_simulations.filter (fun o => ! filter o.op)).isEmpty
      · rw [if_pos hk, opCount_cons]
        omega
      · rw [if_neg hk, opCount_cons, opCount_cons]
        have hfle : (e.2.ops_with_simulations.filter (fun o => ! filter o.op)).length
            ≤ e.2.ops_with_simulations.length := List.length_filter_le _ _
        dsimp only
        omega
    · rw [if_neg hany, opCount_cons, opCount_cons]
      omega

/-- If some op in the group list matches the filter, filter_reject
strictly shrinks the op count. -/
theorem opCount_filterRejectAux_lt (filter : UserOperation → Bool)
    {gs : List (Option Address × AggregatorGroup)}
    (hmatch : ∃ e ∈ gs, ∃ o ∈ e.2.ops_with_simulations, filter o.op = true) :
    opCount (filterRejectAux filter gs).1 < opCount gs := by
  induction gs with
  | nil => simp at hmatch
  | cons e rest ih =>
    obtain ⟨e0, he0, o0, ho0, hf0⟩ := hmatch
    have hle : opCount (filterRejectAux filter rest).1 ≤ opCount rest :=
      opCount_filterRejectAux_le filter rest
    unfold filterRejectAux
    rcases List.mem_cons.mp he0 with heq | hmem
    · subst heq
      have hany : e0.2.ops_with_simulations.any (fun o => filter o.op) = true :=
        List.any_eq_true.mpr ⟨o0, ho0, hf0⟩
      rw [if_pos hany]
      have hlen : (e0.2.ops_with_simulations.filter (fun o => ! filter o.op)).length
          < e0.2.ops_with_simulations.length := by
        apply List.length_filter_lt_length_iff_exists.mpr
        exact ⟨o0, ho0, by simp [hf0]⟩
      by_cases hk : (e0.2.ops_with_simulations.filter (fun o => ! filter o.op)).isEmpty
      · rw [if_pos hk, opCount_cons]
        omega
      · rw [if_neg hk, opCount_cons, opCount_cons]
        dsimp only
        omega
    · have ihres := ih ⟨e0, hmem, o0, ho0, hf0⟩
      by_cases hany : e.2.ops_with_simulations.any (fun o => filter o.op)
      · rw [if_pos hany]
        by_cases hk : (e.2.ops_with_simulations.filter (fun o => ! filter o.op)).isEmpty
        · rw [if_pos hk, opCount_cons]
          omega
        · rw [if_neg hk, opCount_cons, opCount_cons]
          have hfle : (e.2.ops_with_simulations.filter (fun o => ! filter o.op)).length
              ≤ e.2.ops_with_simulations.length := List.length_filter_le _ _
          dsimp only
          omega
      · rw [if_neg hany, opCount_cons, opCount_cons]
        omega

/-- reject_index on an in-bounds index strictly shrinks the op count. -/
theorem opCount_rejectIndexAux_lt {gs : List (Option Address × AggregatorGroup)} {i : Nat}
    {out : List (Option Address × AggregatorGroup) × OpWithSimulation × Option (Option Address)}
    (hout : rejectIndexAux gs i = some out) : opCount out.1 < opCount gs := by
  induction gs generalizing i out with
  | nil => simp [rejectIndexAux] at hout
  | cons e rest ih =>
    unfold rejectIndexAux at hout
    by_cases hi : i < e.2.ops_with_simulations.length
    · rw [if_pos hi] at hout
      match hg : e.2.ops_with_simulations.get? i with
      | none => rw [hg] at hout; simp at hout
      | some rejected =>
        rw [hg] at hout
        dsimp only at hout
        have hlen : (e.2.ops_with_simulations.eraseIdx i).length
            = e.2.ops_with_simulations.length - 1 := by
          rw [List.length_eraseIdx, if_pos hi]
        have hpos : 0 < e.2.ops_with_simulations.length :=
          Nat.lt_of_le_of_lt (Nat.zero_le i) hi
        by_cases hk : (e.2.ops_with_simulations.eraseIdx i).isEmpty
        · rw [if_pos hk, Option.some_inj] at hout
          subst hout
          dsimp only
          rw [opCount_cons]
          omega
        · rw [if_neg hk, Option.some_inj] at hout
          subst hout
          rw [opCount_cons, opCount_cons]
          show (e.2.ops_with_simulations.eraseIdx i).length + opCount rest
            < e.2.ops_with_simulations.length + opCount rest
          omega
    · rw [if_neg hi, Option.map_eq_some'] at hout
      obtain ⟨r, hr, heq⟩ := hout
      subst heq
      have := ih hr
      dsimp only
      rw [opCount_cons, opCount_cons]
      omega

/-- Removing a present key whose group is nonempty strictly shrinks the
op count. -/
theorem opCount_lhmRemove_lt {gs : List (Option Address × AggregatorGroup)}
    {k : Option Address} {g : AggregatorGroup} (hmem : (k, g) ∈ gs)
    (hGN : GroupsNonempty gs) : opCount (lhmRemove gs k) < opCount gs := by
  induction gs with
  | nil => simp at hmem
  | cons e rest ih =>
    have hrest : GroupsNonempty rest := fun e' he' => hGN e' (List.mem_cons_of_mem _ he')
    unfold lhmRemove List.eraseP
    by_cases hk : e.1 = k
    · rw [decide_eq_true hk]
      dsimp only [cond]
      have hne : e.2.ops_with_simulations ≠ [] := hGN e (List.mem_cons_self _ _)
      have hpos : 0 < e.2.ops_with_simulations.length := List.length_pos_of_ne_nil hne
      rw [opCount_cons]
      omega
    · rw [decide_eq_false hk]
      dsimp only [cond]
      have hmem' : (k, g) ∈ rest := by
        rcases List.mem_cons.mp hmem with heq | hm
        · exact absurd (congrArg Prod.fst heq.symm) hk
        · exact hm
      have hlt := ih hmem' hrest
      rw [opCount_cons, opCount_cons]
      have he : List.eraseP (fun e => decide (e.1 = k)) rest = lhmRemove rest k := rfl
      rw [he]
      omega

/-- The flattened op list of a submitted bundle, in group iteration
order — the order against which the entry point reports FailedOp
indices. -/
def flatUserOps (b : List UserOpsPerAggregator) : List UserOperation :=
  b.flatMap (fun u => u.user_ops)

theorem op_with_replaced_sig_factory (x : OpWithSimulation) :
    x.op_with_replaced_sig.factory = x.op.factory := by
  unfold OpWithSimulation.op_with_replaced_sig
  cases x.simulation.aggregator <;> rfl

theorem op_with_replaced_sig_paymaster (x : OpWithSimulation) :
    x.op_with_replaced_sig.paymaster = x.op.paymaster := by
  unfold OpWithSimulation.op_with_replaced_sig
  cases x.simulation.aggregator <;> rfl

theorem flatUserOps_to_ops (c : ProposalContext) :
    flatUserOps c.to_ops_per_aggregator
      = ((c.groups_by_aggregator.flatMap (fun e => e.2.ops_with_simulations)).map
          (fun x => x.op_with_replaced_sig)) := by
  unfold flatUserOps ProposalContext.to_ops_per_aggregator
  rw [List.flatMap_map, List.map_flatMap]

theorem getOpAtAux_eq_flat (gs : List (Option Address × AggregatorGroup)) (i : Nat) :
    getOpAtAux gs i
      = ((gs.flatMap (fun e => e.2.ops_with_simulations)).get? i).map (fun x => x.op) := by
  induction gs generalizing i with
  | nil => simp [getOpAtAux]
  | cons e rest ih =>
    unfold getOpAtAux
    rw [List.flatMap_cons]
    by_cases hi : i < e.2.ops_with_simulations.length
    · rw [if_pos hi, List.get?_append hi]
    · rw [if_neg hi, ih]
      congr 1
      rw [List.get?_append_right (le_of_not_lt hi)]

/-- The op at a flat bundle index corresponds to the context op that
get_op_at finds at that index; signature replacement preserves the
factory and paymaster, and the context op really sits in some group. -/
theorem get_op_at_of_flat_bundle {c : ProposalContext} {i : Nat} {bop : UserOperation}
    (h : (flatUserOps c.to_ops_per_aggregator).get? i = some bop) :
    ∃ cop, c.get_op_at i = some cop ∧ cop.factory = bop.factory
      ∧ cop.paymaster = bop.paymaster
      ∧ ∃ e ∈ c.groups_by_aggregator, ∃ o ∈ e.2.ops_with_simulations, o.op = cop := by
  rw [flatUserOps_to_ops, List.get?_map] at h
  obtain ⟨x, hx, hbop⟩ := Option.map_eq_some'.mp h
  refine ⟨x.op, ?_, ?_, ?_, ?_⟩
  · unfold ProposalContext.get_op_at
    rw [getOpAtAux_eq_flat, hx]
    rfl
  · rw [← hbop, op_with_replaced_sig_factory]
  · rw [← hbop, op_with_replaced_sig_paymaster]
  · obtain ⟨e, he, ho⟩ := List.mem_flatMap.mp (List.get?_mem hx)
    exact ⟨e, he, x, ho, rfl⟩

/-- A nonzero aggregator address appearing in the emitted bundle is a
present key of the context. -/
theorem aggregator_key_present {c : ProposalContext} {a : Address} (ha : a ≠ 0)
    (h : ∃ u ∈ c.to_ops_per_aggregator, u.aggregator = a) :
    ∃ g, (some a, g) ∈ c.groups_by_aggregator := by
  obtain ⟨u, hu, hag⟩ := h
  unfold ProposalContext.to_ops_per_aggregator at hu
  obtain ⟨e, he, hue⟩ := List.mem_map.mp hu
  rw [← hue] at hag
  dsimp only at hag
  cases hk : e.1 with
  | none =>
    exfalso
    rw [hk] at hag
    exact ha (by simpa using hag.symm)
  | some a' =>
    have haa : a' = a := by
      rw [hk] at hag
      simpa using hag
    refine ⟨e.2, ?_⟩
    rw [← haa, ← hk]
    simpa using he

/-- reject_entity on an aggregator entity, unfolded. -/
theorem reject_entity_aggregator (c : ProposalContext) (a : Address) :
    c.reject_entity (Entity.aggregator a)
      = ({ groups_by_aggregator := lhmRemove c.groups_by_aggregator (some a)
           rejected_ops := c.rejected_ops
           rejected_entities := c.rejected_entities ++ [Entity.aggregator a] }, []) :=
  rfl

/-- Well-formedness of an entry-point response relative to the bundle it
was asked about: FailedOp carries an in-bounds index, a message of at
least four characters, and an op that actually has the entity the code
family refers to; SignatureValidationFailed names a nonzero aggregator
appearing in the bundle. -/
def ValidResponse (b : List UserOpsPerAggregator) : HandleOpsOut → Prop
  | HandleOpsOut.SuccessWithGas _ => True
  | HandleOpsOut.FailedOp i msg =>
    4 ≤ msg.length
      ∧ ∃ op, (flatUserOps b).get? i = some op
          ∧ (isFactoryCode (msg.take 4) = true → op.factory ≠ none)
          ∧ (isPaymasterCode (msg.take 4) = true → op.paymaster ≠ none)
  | HandleOpsOut.SignatureValidationFailed a =>
    a ≠ 0 ∧ ∃ u ∈ b, u.aggregator = a

/-- A valid FailedOp response strictly shrinks the context's op count
(and keeps all groups nonempty). -/
theorem process_failed_op_progress (aggSig : Address → List UserOperation → SigResult)
    (c : ProposalContext) (i : Nat) (msg : List Char)
    (hGN : GroupsNonempty c.groups_by_aggregator)
    (hvr : ValidResponse c.to_ops_per_aggregator (HandleOpsOut.FailedOp i msg)) :
    ∃ c', process_failed_op aggSig c i msg = FailedOpOutcome.ok c'
      ∧ opCount c'.groups_by_aggregator < opCount c.groups_by_aggregator
      ∧ GroupsNonempty c'.groups_by_aggregator := by
  obtain ⟨hlen, bop, hbop, hfac, hpm⟩ := hvr
  obtain ⟨cop, hcop, hcfac, hcpm, e0, he0, o0, ho0, ho0op⟩ := get_op_at_of_flat_bundle hbop
  have h4 : first4 msg = some (msg.take 4) := by
    unfold first4
    rw [if_neg (by omega)]
  by_cases hf : isFactoryCode (msg.take 4)
  · match hfa : bop.factory with
    | none => exact absurd hfa (hfac hf)
    | some f =>
      have hcf : cop.factory = some f := by rw [hcfac, hfa]
      refine ⟨computeAggregatorSignatures aggSig (c.reject_entity (Entity.factory f)).1
        (c.reject_entity (Entity.factory f)).2, ?_, ?_, ?_⟩
      · unfold process_failed_op
        rw [h4]
        dsimp only
        rw [if_pos hf, hcop]
        dsimp only
        rw [hcf]
      · refine lt_of_le_of_lt (opCount_computeAggregatorSignatures_le aggSig _ _) ?_
        rw [reject_entity_factory]
        dsimp only
        apply opCount_filterRejectAux_lt
        exact ⟨e0, he0, o0, ho0, by rw [ho0op]; simp [hcf]⟩
      · apply GroupsNonempty_computeAggregatorSignatures
        rw [reject_entity_factory]
        exact GroupsNonempty_filterRejectAux _ hGN
  · by_cases hp : isPaymasterCode (msg.take 4)
    · match hpa : bop.paymaster with
      | none => exact absurd hpa (hpm hp)
      | some pm =>
        have hcp : cop.paymaster = some pm := by rw [hcpm, hpa]
        refine ⟨computeAggregatorSignatures aggSig (c.reject_entity (Entity.paymaster pm)).1
          (c.reject_entity (Entity.paymaster pm)).2, ?_, ?_, ?_⟩
        · unfold process_failed_op
          rw [h4]
          dsimp only
          rw [if_neg (by simp [hf]), if_pos hp, hcop]
          dsimp only
          rw [hcp]
        · refine lt_of_le_of_lt (opCount_computeAggregatorSignatures_le aggSig _ _) ?_
          rw [reject_entity_paymaster]
          dsimp only
          apply opCount_filterRejectAux_lt
          exact ⟨e0, he0, o0, ho0, by rw [ho0op]; simp [hcp]⟩
        · apply GroupsNonempty_computeAggregatorSignatures
          rw [reject_entity_paymaster]
          exact GroupsNonempty_filterRejectAux _ hGN
    · obtain ⟨out, hout, _⟩ :=
        rejectIndexAux_of_getOpAt (hcop : getOpAtAux c.groups_by_aggregator i = some cop)
      refine ⟨computeAggregatorSignatures aggSig (c.reject_index i).1
        (c.reject_index i).2.toList, ?_, ?_, ?_⟩
      · unfold process_failed_op
        rw [h4]
        dsimp only
        rw [if_neg (by simp [hf]), if_neg (by simp [hp])]
      · refine lt_of_le_of_lt (opCount_computeAggregatorSignatures_le aggSig _ _) ?_
        unfold ProposalContext.reject_index
        rw [hout]
        dsimp only
        exact opCount_rejectIndexAux_lt hout
      · apply GroupsNonempty_computeAggregatorSignatures
        unfold ProposalContext.reject_index
        rw [hout]
        exact GroupsNonempty_rejectIndexAux hout hGN

theorem groups_nil_of_opCount_zero {gs : List (Option Address × AggregatorGroup)}
    (hGN : GroupsNonempty gs) (hz : opCount gs = 0) : gs = [] := by
  match gs with
  | [] => rfl
  | e :: rest =>
    exfalso
    have hne := hGN e (List.mem_cons_self _ _)
    have hpos := List.length_pos_of_ne_nil hne
    rw [opCount_cons] at hz
    omega

/-- C8 amended: for any entry-point response function whose answers are
well formed for the bundle they are asked about (ValidResponse), every
non-returning iteration of the gas-estimation loop removes at least one
op from the context, so make_bundle returns a bundle within
opCount = |ops| iterations.  (As C8_unbounded_counterexample shows, an
out-of-range index or an aggregator address with no group makes an
iteration remove nothing, so the bound fails for arbitrary responses.) -/
theorem C8_loop_terminates_on_valid_responses
    (aggSig : Address → List UserOperation → SigResult)
    (estimate : List UserOpsPerAggregator → HandleOpsOut) (mpf : Nat)
    (hvalid : ∀ b, ValidResponse b (estimate b)) :
    ∀ (fuel : Nat) (c : ProposalContext), GroupsNonempty c.groups_by_aggregator →
      opCount c.groups_by_aggregator ≤ fuel →
      ∃ bundleOut, make_bundle_loop aggSig estimate mpf fuel c = LoopResult.ok bundleOut := by
  intro fuel
  induction fuel with
  | zero =>
    intro c hGN hle
    have hnil := groups_nil_of_opCount_zero hGN (Nat.le_zero.mp hle)
    refine ⟨emptyExit c, ?_⟩
    unfold make_bundle_loop
    rw [if_pos (by simp [ProposalContext.is_empty, hnil])]
  | succ fuel ih =>
    intro c hGN hle
    by_cases he : c.is_empty
    · refine ⟨emptyExit c, ?_⟩
      unfold make_bundle_loop
      rw [if_pos he]
    · have hv := hvalid c.to_ops_per_aggregator
      match hest : estimate c.to_ops_per_aggregator with
      | HandleOpsOut.SuccessWithGas gas =>
        refine ⟨{ ops_per_aggregator := c.to_ops_per_aggregator
                  gas_estimate := gas
                  max_priority_fee_per_gas := mpf
                  rejected_ops := c.rejected_ops
                  rejected_entities := c.rejected_entities }, ?_⟩
        unfold make_bundle_loop
        rw [if_neg he, hest]
      | HandleOpsOut.FailedOp i msg =>
        rw [hest] at hv
        obtain ⟨c', hc', hlt, hGN'⟩ := process_failed_op_progress aggSig c i msg hGN hv
        obtain ⟨bres, hbres⟩ := ih c' hGN' (by omega)
        refine ⟨bres, ?_⟩
        unfold make_bundle_loop
        rw [if_neg he, hest]
        dsimp only
        rw [hc']
        exact hbres
      | HandleOpsOut.SignatureValidationFailed a =>
        rw [hest] at hv
        obtain ⟨ha, hmem⟩ := hv
        obtain ⟨g, hg⟩ := aggregator_key_present ha hmem
        have hlt : opCount (computeAggregatorSignatures aggSig
            (c.reject_entity (Entity.aggregator a)).1
            (c.reject_entity (Entity.aggregator a)).2).groups_by_aggregator
              < opCount c.groups_by_aggregator := by
          refine lt_of_le_of_lt (opCount_computeAggregatorSignatures_le aggSig _ _) ?_
          rw [reject_entity_aggregator]
          exact opCount_lhmRemove_lt hg hGN
        have hGN' : GroupsNonempty (computeAggregatorSignatures aggSig
            (c.reject_entity (Entity.aggregator a)).1
            (c.reject_entity (Entity.aggregator a)).2).groups_by_aggregator := by
          apply GroupsNonempty_computeAggregatorSignatures
          rw [reject_entity_aggregator]
          exact GroupsNonempty_of_sublist (List.eraseP_sublist _) hGN
        obtain ⟨bres, hbres⟩ := ih _ hGN' (by omega)
        refine ⟨bres, ?_⟩
        unfold make_bundle_loop
        rw [if_neg he, hest]
        exact hbres

/-- C8's concrete refutation data: a context holding a single op in the
group with no aggregator. -/
def c8Op : UserOperation := ⟨1, 0, none, none, 10, 0, []⟩

def c8Ctx : ProposalContext := ⟨[(none, ⟨[⟨c8Op, ⟨false, true, [], none⟩⟩], []⟩)], [], []⟩

/-- Counterexample to C8 as stated: with one op in the context (so
|ops| = 1) and an entry point that answers SignatureValidationFailed for
aggregator 7 — an address with no group — the iteration removes nothing
from the context (rejecting the unknown aggregator entity leaves
groups_by_aggregator unchanged) and make_bundle does not return within
|ops| iterations. -/
theorem C8_unbounded_counterexample :
    opCount c8Ctx.groups_by_aggregator = 1
      ∧ make_bundle_loop (fun _ _ => SigResult.okSome [])
          (fun _ => HandleOpsOut.SignatureValidationFailed 7) 0 1 c8Ctx
          = LoopResult.outOfFuel
      ∧ ((c8Ctx.reject_entity (Entity.aggregator 7)).1).groups_by_aggregator
          = c8Ctx.groups_by_aggregator := by
  decide

/-- Witness for the amended C8 theorem: a one-op context against an entry
point that always succeeds. -/
theorem C8_loop_terminates_on_valid_responses_witness :
    GroupsNonempty c8Ctx.groups_by_aggregator
      ∧ opCount c8Ctx.groups_by_aggregator ≤ 1
      ∧ ∃ bundleOut, make_bundle_loop (fun _ _ => SigResult.okSome [])
          (fun _ => HandleOpsOut.SuccessWithGas 3) 0 1 c8Ctx = LoopResult.ok bundleOut :=
  ⟨by unfold GroupsNonempty; decide, by decide,
   C8_loop_terminates_on_valid_responses (fun _ _ => SigResult.okSome [])
     (fun _ => HandleOpsOut.SuccessWithGas 3) 0 (fun _ => trivial) 1 c8Ctx
     (by unfold GroupsNonempty; decide) (by decide)⟩

/-- Concrete data for exercising the C1 theorem. -/
def c1Op : UserOperation := ⟨1, 0, some 9, none, 40, 0, []⟩

def c1Sim : SimulationSuccess := ⟨false, true, [], none⟩

def c1Pool : List OpFromPool := [⟨c1Op, SimOutcome.success c1Sim⟩]

def c1Bundle : Bundle := ⟨[⟨[c1Op], 0, []⟩], 5, 0, [], []⟩

/-- Witness for C1 at a concrete one-op bundle with deposit 100 and
max_gas_cost 40. -/
theorem C1_bundle_paymaster_deposit_bound_witness :
    make_bundle ⟨10, 124, false, 10⟩ (fun _ _ => SigResult.okSome [])
        (fun _ => HandleOpsOut.SuccessWithGas 5) (fun _ => 100) c1Pool 0 1
      = LoopResult.ok c1Bundle
      ∧ bundleCost 9 c1Bundle.ops_per_aggregator ≤ 100 :=
  ⟨by decide,
   C1_bundle_paymaster_deposit_bound ⟨10, 124, false, 10⟩ (fun _ _ => SigResult.okSome [])
     (fun _ => HandleOpsOut.SuccessWithGas 5) (fun _ => 100) c1Pool 0 1 c1Bundle 9
     (by decide) (by decide) (by decide)⟩

/-! ## Chain tracker (crates/pool/src/chain.rs)

The provider is modelled as a pair of oracles: get_block by hash (none
models both an RPC error and a missing block — either aborts the sync),
and get_logs by block hash, already filtered for the entry points and
parsed into mined ops and deposits (load_mined_ops / load_entity_deposits
skip unparsable logs, so the parsed view is total).  Loops take fuel;
each iteration decreases the front block number by one, so number + 1
fuel is always enough, and a sync that would succeed in the source
succeeds here with that fuel. -/

structure MinedOp where
  hash : Nat
  entry_point : Address
  sender : Address
  nonce : Nat
  actual_gas_cost : Nat
  paymaster : Option Address
deriving Repr, DecidableEq

structure DepositInfo where
  address : Address
  entrypoint : Address
  amount : Nat
deriving Repr, DecidableEq

structure BlockSummary where
  number : Nat
  hash : Nat
  timestamp : Nat
  parent_hash : Nat
  ops : List MinedOp
  entity_deposits : List DepositInfo
deriving Repr, DecidableEq

structure ChainUpdate where
  latest_block_number : Nat
  latest_block_hash : Nat
  latest_block_timestamp : Nat
  earliest_remembered_block_number : Nat
  reorg_depth : Nat
  mined_ops : List MinedOp
  unmined_ops : List MinedOp
  entity_deposits : List DepositInfo
  unmined_entity_deposits : List DepositInfo
  reorg_larger_than_history : Bool
deriving Repr, DecidableEq

/-- Block<H256> as the provider returns it: number and hash are optional
in the ethers type and checked by try_from_block_without_ops. -/
structure RawBlock where
  number : Option Nat
  hash : Option Nat
  parent_hash : Nat
  timestamp : Nat
deriving Repr, DecidableEq

structure ChainProvider where
  get_block : Nat → Option RawBlock
  get_logs : Nat → List MinedOp × List DepositInfo

/-- chain.rs: BlockSummary::try_from_block_without_ops. -/
def try_from_block_without_ops (block : RawBlock) (expected_block_number : Option Nat) :
    Option BlockSummary :=
  match block.number, block.hash with
  | some number, some h =>
    match expected_block_number with
    | some expected =>
      if number = expected then
        some ⟨number, h, block.timestamp, block.parent_hash, [], []⟩
      else
        none
    | none => some ⟨number, h, block.timestamp, block.parent_hash, [], []⟩
  | _, _ => none

/-- chain.rs: the while-loop of load_blocks_back_to_number_no_ops.
front is blocks[0], acc the blocks behind it.  Every iteration replaces
front with its parent (whose number is checked to be front.number − 1),
so front.number + 1 fuel never runs out. -/
def load_blocks_back_aux (pr : ChainProvider) :
    Nat → BlockSummary → Nat → List BlockSummary → Option (List BlockSummary)
  | 0, _, _, _ => none
  | fuel + 1, front, min_block_number, acc =>
    if front.number ≤ min_block_number then
      some (front :: acc)
    else
      match pr.get_block front.parent_hash with
      | none => none
      | some raw =>
        match try_from_block_without_ops raw (some (front.number - 1)) with
        | none => none
        | some parent => load_blocks_back_aux pr fuel parent min_block_number (front :: acc)

def load_blocks_back_to_number_no_ops (pr : ChainProvider) (head : BlockSummary)
    (min_block_number : Nat) : Option (List BlockSummary) :=
  load_blocks_back_aux pr (head.number + 1) head min_block_number []

/-- chain.rs: load_ops_into_block_summaries (the per-block hash-scoped
log query; the 64-permit semaphore only limits concurrency). -/
def load_ops_into_block_summaries (pr : ChainProvider) (blocks : List BlockSummary) :
    List BlockSummary :=
  blocks.map (fun b =>
    { b with ops := (pr.get_logs b.hash).1, entity_deposits := (pr.get_logs b.hash).2 })

/-- chain.rs: block_with_number (index arithmetic against the front of
the window). -/
def block_with_number (blocks : List BlockSummary) (number : Nat) : Option BlockSummary :=
  match blocks.head? with
  | none => none
  | some front =>
    if number < front.number then none else blocks.get? (number - front.number)

/-- chain.rs: the backward-connect loop of
load_added_blocks_connecting_to_existing_chain.  earliest is
added_blocks[0]; each iteration pushes its parent to the front, so
earliest.number + 1 fuel never runs out. -/
def connect_aux (pr : ChainProvider) (blocks : List BlockSummary) :
    Nat → BlockSummary → List BlockSummary → Option (List BlockSummary)
  | 0, _, _ => none
  | fuel + 1, earliest, rest =>
    if earliest.number = 0 then
      some (earliest :: rest)
    else
      match block_with_number blocks (earliest.number - 1) with
      | none =>
        -- reorg deeper than the tracked history: stop and flag later
        some (earliest :: rest)
      | some presumed_parent =>
        if presumed_parent.hash = earliest.parent_hash then
          some (earliest :: rest)
        else
          match pr.get_block earliest.parent_hash with
          | none => none
          | some raw =>
            match try_from_block_without_ops raw (some (earliest.number - 1)) with
            | none => none
            | some b => connect_aux pr blocks fuel b (earliest :: rest)

/-- chain.rs: load_added_blocks_connecting_to_existing_chain. -/
def load_added_blocks_connecting_to_existing_chain (pr : ChainProvider)
    (blocks : List BlockSummary) (current_block_number : Nat) (new_head : BlockSummary) :
    Option (List BlockSummary) :=
  match load_blocks_back_to_number_no_ops pr new_head (current_block_number + 1) with
  | none => none
  | some added =>
    match added with
    | [] => none
    | earliest :: rest =>
      match connect_aux pr blocks (earliest.number + 1) earliest rest with
      | none => none
      | some connected => some (load_ops_into_block_summaries pr connected)

/-- chain.rs: new_update (blocks.back() and blocks[0] must exist). -/
def new_update (blocks : List BlockSummary) (reorg_depth : Nat)
    (mined_ops : List MinedOp) (unmined_ops : List MinedOp)
    (entity_deposits : List DepositInfo) (unmined_entity_deposits : List DepositInfo)
    (reorg_larger_than_history : Bool) : Option ChainUpdate :=
  match blocks.head?, blocks.getLast? with
  | some front, some latest_block =>
    some
      { latest_block_number := latest_block.number
        latest_block_hash := latest_block.hash
        latest_block_timestamp := latest_block.timestamp
        earliest_remembered_block_number := front.number
        reorg_depth := reorg_depth
        mined_ops := mined_ops
        unmined_ops := unmined_ops
        entity_deposits := entity_deposits
        unmined_entity_deposits := unmined_entity_deposits
        reorg_larger_than_history := reorg_larger_than_history }
  | _, _ => none

/-- chain.rs: update_with_blocks, as a pure function of the window.
Returns none only where the source would panic (added_blocks[0] on an
empty list, blocks.back() on an empty result window); Nat subtraction
mirrors the source's u64/usize arithmetic on the in-range values the
callers provide. -/
def update_with_blocks (history_size : Nat) (blocks : List BlockSummary)
    (current_block_number : Nat) (added_blocks : List BlockSummary) :
    Option (ChainUpdate × List BlockSummary) :=
  match added_blocks.head? with
  | none => none
  | some first =>
    let mined_ops := added_blocks.flatMap (fun b => b.ops)
    let entity_deposits := added_blocks.flatMap (fun b => b.entity_deposits)
    let reorg_depth := current_block_number + 1 - first.number
    let unmined_ops := (blocks.drop (blocks.length - reorg_depth)).flatMap (fun b => b.ops)
    let unmined_entity_deposits :=
      (blocks.drop (blocks.length - reorg_depth)).flatMap (fun b => b.entity_deposits)
    let is_reorg_larger_than_history := decide (history_size ≤ reorg_depth)
    let extended := blocks.take (blocks.length - reorg_depth) ++ added_blocks
    let newBlocks := extended.drop (extended.length - history_size)
    (new_update newBlocks reorg_depth mined_ops unmined_ops entity_deposits
        unmined_entity_deposits is_reorg_larger_than_history).map
      (fun u => (u, newBlocks))

/-- chain.rs: reset_and_initialize. -/
def reset_and_initialize (pr : ChainProvider) (history_size : Nat) (head : BlockSummary) :
    Option (ChainUpdate × List BlockSummary) :=
  let min_block_number := head.number - (history_size - 1)
  match load_blocks_back_to_number_no_ops pr head min_block_number with
  | none => none
  | some blocks =>
    let blocks := load_ops_into_block_summaries pr blocks
    let mined_ops := blocks.flatMap (fun b => b.ops)
    let entity_deposits := blocks.flatMap (fun b => b.entity_deposits)
    (new_update blocks 0 mined_ops [] entity_deposits [] false).map (fun u => (u, blocks))

/-- chain.rs: sync_to_block.  State is the current window; on success
returns the emitted ChainUpdate together with the new window. -/
def sync_to_block (pr : ChainProvider) (history_size : Nat) (blocks : List BlockSummary)
    (new_head_raw : RawBlock) : Option (ChainUpdate × List BlockSummary) :=
  match try_from_block_without_ops new_head_raw none with
  | none => none
  | some new_head =>
    match blocks.getLast? with
    | none => reset_and_initialize pr history_size new_head
    | some current_block =>
      let current_block_number := current_block.number
      let new_block_number := new_head.number
      if current_block_number < new_block_number + history_size then
        if current_block_number + history_size < new_block_number then
          reset_and_initialize pr history_size new_head
        else
          match load_added_blocks_connecting_to_existing_chain pr blocks
              current_block_number new_head with
          | none => none
          | some added_blocks =>
            update_with_blocks history_size blocks current_block_number added_blocks
      else
        -- ensure: new head is older than the window start (ChainInconsistent)
        none

/-- C2: for a successful non-reset head advance (update_with_blocks, as
reached from sync_to_block on a non-empty window, with the facts
load_added_blocks_connecting_to_existing_chain guarantees: added_blocks
is nonempty, its first block's number is at most current + 1, and the
resulting depth is within the window), the emitted ChainUpdate has
reorg_depth = current.number + 1 − added_blocks[0].number, its
unmined_ops are exactly the ops of the last reorg_depth blocks of the
prior window (the replaced suffix), and reorg_depth = 0 iff no tracked
block was replaced — i.e. iff no block is popped from the back, the
whole prior window surviving as the prefix onto which added_blocks are
appended. -/
theorem C2_update_with_blocks_reorg (history_size : Nat) (blocks : List BlockSummary)
    (current_block_number : Nat) (added_blocks : List BlockSummary)
    (first : BlockSummary) (u : ChainUpdate) (blocks' : List BlockSummary)
    (hhead : added_blocks.head? = some first)
    (hne : blocks ≠ [])
    (_hfle : first.number ≤ current_block_number + 1)
    (hdle : current_block_number + 1 - first.number ≤ blocks.length)
    (hok : update_with_blocks history_size blocks current_block_number added_blocks
        = some (u, blocks')) :
    u.reorg_depth = current_block_number + 1 - first.number
      ∧ u.unmined_ops
          = (blocks.drop (blocks.length - u.reorg_depth)).flatMap (fun b => b.ops)
      ∧ (u.reorg_depth = 0
          ↔ blocks.take (blocks.length - u.reorg_depth) = blocks) := by
  unfold update_with_blocks at hok
  rw [hhead] at hok
  dsimp only at hok
  rw [Option.map_eq_some'] at hok
  obtain ⟨u0, hu0, heq⟩ := hok
  injection heq with hu hb
  subst hu
  unfold new_update at hu0
  generalize List.drop
      ((List.take (blocks.length - (current_block_number + 1 - first.number)) blocks
          ++ added_blocks).length - history_size)
      (List.take (blocks.length - (current_block_number + 1 - first.number)) blocks
          ++ added_blocks) = nb at hu0
  cases hnbh : nb.head? with
  | none =>
    rw [hnbh] at hu0
    simp at hu0
  | some front =>
    cases hnbl : nb.getLast? with
    | none =>
      rw [hnbh, hnbl] at hu0
      simp at hu0
    | some latest_block =>
      rw [hnbh, hnbl] at hu0
      dsimp only at hu0
      rw [Option.some_inj] at hu0
      subst hu0
      refine ⟨rfl, rfl, ?_⟩
      dsimp only
      constructor
      · intro hd
        rw [hd, Nat.sub_zero, List.take_length]
      · intro ht
        have hlen := congrArg List.length ht
        rw [List.length_take] at hlen
        have hpos : 0 < blocks.length := List.length_pos_of_ne_nil hne
        omega

/-- Concrete forward-reorg data for exercising C2: a three-block window
whose head (block 2, ops [102]) is replaced by a new block 2 carrying op
112. -/
def c2mo (n : Nat) : MinedOp := ⟨n, 0, 0, 0, 0, none⟩

def c2Blocks : List BlockSummary :=
  [⟨0, 10, 0, 0, [c2mo 100], []⟩, ⟨1, 11, 0, 10, [c2mo 101], []⟩,
   ⟨2, 12, 0, 11, [c2mo 102], []⟩]

def c2Added : List BlockSummary := [⟨2, 22, 0, 11, [c2mo 112], []⟩]

def c2Update : ChainUpdate :=
  ⟨2, 22, 0, 0, 1, [c2mo 112], [c2mo 102], [], [], false⟩

def c2NewBlocks : List BlockSummary :=
  [⟨0, 10, 0, 0, [c2mo 100], []⟩, ⟨1, 11, 0, 10, [c2mo 101], []⟩,
   ⟨2, 22, 0, 11, [c2mo 112], []⟩]

/-- Witness for C2 at the concrete depth-1 forward reorg. -/
theorem C2_update_with_blocks_reorg_witness :
    update_with_blocks 3 c2Blocks 2 c2Added = some (c2Update, c2NewBlocks)
      ∧ c2Update.reorg_depth = 2 + 1 - 2
      ∧ c2Update.unmined_ops
          = (c2Blocks.drop (c2Blocks.length - c2Update.reorg_depth)).flatMap (fun b => b.ops)
      ∧ (c2Update.reorg_depth = 0
          ↔ c2Blocks.take (c2Blocks.length - c2Update.reorg_depth) = c2Blocks) :=
  ⟨by decide,
   C2_update_with_blocks_reorg 3 c2Blocks 2 c2Added ⟨2, 22, 0, 11, [c2mo 112], []⟩
     c2Update c2NewBlocks (by decide) (by decide) (by decide) (by decide) (by decide)⟩

/-! ### C3: the window stays hash-linked and bounded -/

/-- The provider is the chain: a block fetched by hash is the block with
that hash.  (get_block may still fail or omit fields; this only pins the
hash of what it does return.) -/
def HonestProvider (pr : ChainProvider) : Prop :=
  ∀ h raw, pr.get_block h = some raw → raw.hash = some h

/-- Window block numbers are consecutive. -/
def NumberLinked (blocks : List BlockSummary) : Prop :=
  List.Chain' (fun a b => b.number = a.number + 1) blocks

/-- The window is hash-linked: blocks[i+1].parent_hash = blocks[i].hash. -/
def HashLinked (blocks : List BlockSummary) : Prop :=
  List.Chain' (fun a b => b.parent_hash = a.hash) blocks

theorem try_from_some_expected {raw : RawBlock} {expected : Nat} {b : BlockSummary}
    (h : try_from_block_without_ops raw (some expected) = some b) :
    b.number = expected ∧ raw.hash = some b.hash ∧ b.parent_hash = raw.parent_hash := by
  unfold try_from_block_without_ops at h
  match hn : raw.number, hh : raw.hash with
  | some number, some hsh =>
    rw [hn, hh] at h
    dsimp only at h
    by_cases he : number = expected
    · rw [if_pos he, Option.some_inj] at h
      subst h
      exact ⟨he, rfl, rfl⟩
    · rw [if_neg he] at h
      simp at h
  | some number, none => rw [hn, hh] at h; simp at h
  | none, _ => rw [hn] at h; simp at h

/-- Behaviour of the backward loader: the result extends the input chain
front-to-back by parents, stays number- and hash-linked, stops at
min(front.number, min_block_number), and preserves the back of the
list. -/
theorem load_blocks_back_aux_spec (pr : ChainProvider) (hpr : HonestProvider pr) :
    ∀ (fuel : Nat) (front : BlockSummary) (min_block_number : Nat)
      (acc out : List BlockSummary),
      load_blocks_back_aux pr fuel front min_block_number acc = some out →
      NumberLinked (front :: acc) → HashLinked (front :: acc) →
      ∃ h t, out = h :: t
        ∧ NumberLinked out ∧ HashLinked out
        ∧ h.number = Nat.min front.number min_block_number
        ∧ out.length = (front.number - h.number) + (front :: acc).length
        ∧ out.getLast? = (front :: acc).getLast? := by
  intro fuel
  induction fuel with
  | zero => intro front min_bn acc out hout; simp [load_blocks_back_aux] at hout
  | succ fuel ih =>
    intro front min_bn acc out hout hnl hhl
    unfold load_blocks_back_aux at hout
    by_cases hstop : front.number ≤ min_bn
    · rw [if_pos hstop, Option.some_inj] at hout
      subst hout
      exact ⟨front, acc, rfl, hnl, hhl, (Nat.min_eq_left hstop).symm, by omega, rfl⟩
    · rw [if_neg hstop] at hout
      match hgb : pr.get_block front.parent_hash with
      | none => rw [hgb] at hout; simp at hout
      | some raw =>
        rw [hgb] at hout
        dsimp only at hout
        match htf : try_from_block_without_ops raw (some (front.number - 1)) with
        | none => rw [htf] at hout; simp at hout
        | some parent =>
          rw [htf] at hout
          obtain ⟨hpn, hph, hpp⟩ := try_from_some_expected htf
          have hparenthash : parent.hash = front.parent_hash := by
            have := hpr _ _ hgb
            rw [this] at hph
            exact (Option.some_inj.mp hph).symm
          have hfpos : 0 < front.number := by omega
          have hnl' : NumberLinked (parent :: front :: acc) := by
            refine List.chain'_cons.mpr ⟨?_, hnl⟩
            omega
          have hhl' : HashLinked (parent :: front :: acc) := by
            refine List.chain'_cons.mpr ⟨?_, hhl⟩
            exact hparenthash.symm
          obtain ⟨h, t, hout_eq, hn, hh, hmin, hlen, hlast⟩ :=
            ih parent min_bn (front :: acc) out hout hnl' hhl'
          refine ⟨h, t, hout_eq, hn, hh, ?_, ?_, ?_⟩
          · rw [hmin, hpn]
            simp only [Nat.min_def]
            split_ifs <;> omega
          · have hhn : h.number = min_bn := by
              rw [hmin, hpn]
              simp only [Nat.min_def]
              split_ifs <;> omega
            rw [hlen, hhn, hpn]
            simp only [List.length_cons]
            omega
          · rw [hlast, List.getLast?_cons_cons]

/-- Behaviour of the backward-connect loop: the result extends the added
chain front-to-back by parents, stays number- and hash-linked, preserves
the back, and stops either at genesis, outside the tracked window, or at
a block whose presumed parent in the window matches. -/
theorem connect_aux_spec (pr : ChainProvider) (blocks : List BlockSummary)
    (hpr : HonestProvider pr) :
    ∀ (fuel : Nat) (earliest : BlockSummary) (rest out : List BlockSummary),
      connect_aux pr blocks fuel earliest rest = some out →
      NumberLinked (earliest :: rest) → HashLinked (earliest :: rest) →
      ∃ h t, out = h :: t
        ∧ NumberLinked out ∧ HashLinked out
        ∧ h.number ≤ earliest.number
        ∧ out.length = (earliest.number - h.number) + (earliest :: rest).length
        ∧ out.getLast? = (earliest :: rest).getLast?
        ∧ (h.number = 0
            ∨ (h.number ≠ 0 ∧ block_with_number blocks (h.number - 1) = none)
            ∨ (h.number ≠ 0 ∧ ∃ pp, block_with_number blocks (h.number - 1) = some pp
                ∧ pp.hash = h.parent_hash)) := by
  intro fuel
  induction fuel with
  | zero => intro earliest rest out hout; simp [connect_aux] at hout
  | succ fuel ih =>
    intro earliest rest out hout hnl hhl
    unfold connect_aux at hout
    by_cases hz : earliest.number = 0
    · rw [if_pos hz, Option.some_inj] at hout
      subst hout
      exact ⟨earliest, rest, rfl, hnl, hhl, le_refl _, by omega, rfl, Or.inl hz⟩
    · rw [if_neg hz] at hout
      match hbwn : block_with_number blocks (earliest.number - 1) with
      | none =>
        rw [hbwn, Option.some_inj] at hout
        subst hout
        exact ⟨earliest, rest, rfl, hnl, hhl, le_refl _, by omega, rfl,
          Or.inr (Or.inl ⟨hz, hbwn⟩)⟩
      | some presumed_parent =>
        rw [hbwn] at hout
        dsimp only at hout
        by_cases hpmatch : presumed_parent.hash = earliest.parent_hash
        · rw [if_pos hpmatch, Option.some_inj] at hout
          subst hout
          exact ⟨earliest, rest, rfl, hnl, hhl, le_refl _, by omega, rfl,
            Or.inr (Or.inr ⟨hz, presumed_parent, hbwn, hpmatch⟩)⟩
        · rw [if_neg hpmatch] at hout
          match hgb : pr.get_block earliest.parent_hash with
          | none => rw [hgb] at hout; simp at hout
          | some raw =>
            rw [hgb] at hout
            dsimp only at hout
            match htf : try_from_block_without_ops raw (some (earliest.number - 1)) with
            | none => rw [htf] at hout; simp at hout
            | some b =>
              rw [htf] at hout
              obtain ⟨hbn, hbh, hbp⟩ := try_from_some_expected htf
              have hbhash : b.hash = earliest.parent_hash := by
                have := hpr _ _ hgb
                rw [this] at hbh
                exact (Option.some_inj.mp hbh).symm
              have hnl' : NumberLinked (b :: earliest :: rest) := by
                refine List.chain'_cons.mpr ⟨?_, hnl⟩
                omega
              have hhl' : HashLinked (b :: earliest :: rest) := by
                refine List.chain'_cons.mpr ⟨?_, hhl⟩
                exact hbhash.symm
              obtain ⟨h, t, hout_eq, hn, hh, hle, hlen, hlast, hstop⟩ :=
                ih b (earliest :: rest) out hout hnl' hhl'
              rw [hbn] at hle
              have hble : h.number ≤ earliest.number := by omega
              refine ⟨h, t, hout_eq, hn, hh, hble, ?_, ?_, hstop⟩
              · rw [hlen, hbn]
                simp only [List.length_cons]
                omega
              · rw [hlast, List.getLast?_cons_cons]

/-- load_ops_into_block_summaries only fills in ops and deposits: the
chain-structural fields are untouched. -/
theorem load_ops_fields (pr : ChainProvider) (blocks : List BlockSummary) :
    (load_ops_into_block_summaries pr blocks).map
        (fun b => (b.number, b.hash, b.parent_hash))
      = blocks.map (fun b => (b.number, b.hash, b.parent_hash)) := by
  unfold load_ops_into_block_summaries
  rw [List.map_map]
  rfl

theorem NumberLinked_load_ops (pr : ChainProvider) {blocks : List BlockSummary}
    (h : NumberLinked blocks) : NumberLinked (load_ops_into_block_summaries pr blocks) := by
  unfold NumberLinked load_ops_into_block_summaries at *
  rw [List.chain'_map]
  exact h

theorem HashLinked_load_ops (pr : ChainProvider) {blocks : List BlockSummary}
    (h : HashLinked blocks) : HashLinked (load_ops_into_block_summaries pr blocks) := by
  unfold HashLinked load_ops_into_block_summaries at *
  rw [List.chain'_map]
  exact h

theorem length_load_ops (pr : ChainProvider) (blocks : List BlockSummary) :
    (load_ops_into_block_summaries pr blocks).length = blocks.length :=
  List.length_map _ _

/-- In a consecutive window, the block at index i is numbered
front.number + i. -/
theorem NumberLinked_get? {blocks : List BlockSummary} (hnl : NumberLinked blocks)
    {front : BlockSummary} (hf : blocks.head? = some front) :
    ∀ (i : Nat) (b : BlockSummary), blocks.get? i = some b → b.number = front.number + i := by
  induction blocks generalizing front with
  | nil => intro i b hb; simp at hb
  | cons a l ihl =>
    intro i b hb
    rw [List.head?_cons, Option.some_inj] at hf
    subst hf
    match i with
    | 0 =>
      rw [List.get?_cons_zero, Option.some_inj] at hb
      subst hb
      rfl
    | i + 1 =>
      rw [List.get?_cons_succ] at hb
      cases l with
      | nil => simp at hb
      | cons a2 l' =>
        unfold NumberLinked at hnl
        have hrel : a2.number = a.number + 1 := (List.chain'_cons.mp hnl).1
        have hnl' : NumberLinked (a2 :: l') := (List.chain'_cons.mp hnl).2
        have hstep := ihl hnl' (show (a2 :: l').head? = some a2 from rfl) i b hb
        omega

/-- In a consecutive window the back block's number is
front.number + length − 1. -/
theorem NumberLinked_last {blocks : List BlockSummary} (hnl : NumberLinked blocks)
    {front last : BlockSummary} (hf : blocks.head? = some front)
    (hl : blocks.getLast? = some last) :
    last.number + 1 = front.number + blocks.length := by
  have hg : blocks.get? (blocks.length - 1) = some last := by
    rw [← List.getLast?_eq_get?]
    exact hl
  have hnum := NumberLinked_get? hnl hf _ _ hg
  have hpos : 0 < blocks.length := by
    cases blocks with
    | nil => simp at hl
    | cons a l => simp
  omega

theorem getLast?_take {α : Type} {l : List α} {k : Nat} (hk : 0 < k) (hkl : k ≤ l.length) :
    (l.take k).getLast? = l.get? (k - 1) := by
  rw [List.getLast?_eq_get?, List.length_take]
  have hm : k ⊓ l.length = k := by
    simp only [Nat.min_def]
    split_ifs <;> omega
  rw [hm, List.get?_take (by omega)]

/-- Preservation of the window invariant through update_with_blocks: the
blocks popped from the back are exactly those above the junction, and
the added chain reconnects there (or replaces the entire remembered
window), so the new window remains number- and hash-linked, and
front-eviction caps its length at history_size. -/
theorem update_with_blocks_inv (history_size : Nat) {blocks added : List BlockSummary}
    {u : ChainUpdate} {blocks' : List BlockSummary} {h front last : BlockSummary}
    (hwn : NumberLinked blocks) (hwh : HashLinked blocks)
    (han : NumberLinked added) (hah : HashLinked added)
    (hhead : added.head? = some h)
    (hfr : blocks.head? = some front) (hla : blocks.getLast? = some last)
    (hjunction :
      h.number ≤ front.number
        ∨ (front.number < h.number
            ∧ ∃ pp, blocks.get? (h.number - 1 - front.number) = some pp
                ∧ pp.hash = h.parent_hash))
    (hok : update_with_blocks history_size blocks last.number added = some (u, blocks')) :
    NumberLinked blocks' ∧ HashLinked blocks' ∧ blocks'.length ≤ history_size := by
  have hlastnum := NumberLinked_last hwn hfr hla
  unfold update_with_blocks at hok
  rw [hhead] at hok
  dsimp only at hok
  rw [Option.map_eq_some'] at hok
  obtain ⟨u0, hu0, heq⟩ := hok
  injection heq with hu hb
  subst hb
  have hext : NumberLinked (blocks.take (blocks.length - (last.number + 1 - h.number)) ++ added)
      ∧ HashLinked (blocks.take (blocks.length - (last.number + 1 - h.number)) ++ added) := by
    rcases hjunction with hle | ⟨hgt, pp, hpp, hpphash⟩
    · have hk0 : blocks.length - (last.number + 1 - h.number) = 0 := by omega
      rw [hk0, List.take_zero, List.nil_append]
      exact ⟨han, hah⟩
    · have hidx : h.number - 1 - front.number < blocks.length := by
        by_contra hcontra
        rw [List.get?_eq_none.mpr (by omega)] at hpp
        exact Option.noConfusion hpp
      have hk : blocks.length - (last.number + 1 - h.number) = h.number - front.number := by
        omega
      rw [hk]
      have hkpos : 0 < h.number - front.number := by omega
      have hkle : h.number - front.number ≤ blocks.length := by omega
      have htl : (blocks.take (h.number - front.number)).getLast?
          = some pp := by
        rw [getLast?_take hkpos hkle]
        have : h.number - front.number - 1 = h.number - 1 - front.number := by omega
        rw [this]
        exact hpp
      have hppnum : pp.number = h.number - 1 :=  by
        have := NumberLinked_get? hwn hfr _ _ hpp
        omega
      constructor
      · rw [NumberLinked, List.chain'_append]
        refine ⟨(hwn : List.Chain' _ blocks).take _, han, ?_⟩
        intro x hx y hy
        rw [htl, Option.mem_def, Option.some_inj] at hx
        rw [hhead, Option.mem_def, Option.some_inj] at hy
        subst hx
        subst hy
        omega
      · rw [HashLinked, List.chain'_append]
        refine ⟨(hwh : List.Chain' _ blocks).take _, hah, ?_⟩
        intro x hx y hy
        rw [htl, Option.mem_def, Option.some_inj] at hx
        rw [hhead, Option.mem_def, Option.some_inj] at hy
        subst hx
        subst hy
        rw [← hpphash]
  refine ⟨hext.1.drop _, hext.2.drop _, ?_⟩
  rw [List.length_drop]
  omega

/-- A reset rebuilds a linked window of at most history_size blocks. -/
theorem reset_and_initialize_inv (pr : ChainProvider) (history_size : Nat)
    (hpr : HonestProvider pr) (hH : 1 ≤ history_size) {head : BlockSummary}
    {u : ChainUpdate} {blocks' : List BlockSummary}
    (hok : reset_and_initialize pr history_size head = some (u, blocks')) :
    NumberLinked blocks' ∧ HashLinked blocks' ∧ blocks'.length ≤ history_size := by
  unfold reset_and_initialize at hok
  dsimp only at hok
  match hload : load_blocks_back_to_number_no_ops pr head (head.number - (history_size - 1)) with
  | none => rw [hload] at hok; simp at hok
  | some blocks0 =>
    rw [hload] at hok
    dsimp only at hok
    rw [Option.map_eq_some'] at hok
    obtain ⟨u0, hu0, heq⟩ := hok
    injection heq with hu hb
    subst hb
    unfold load_blocks_back_to_number_no_ops at hload
    obtain ⟨h, t, hout_eq, hn, hh, hmin, hlen, _⟩ :=
      load_blocks_back_aux_spec pr hpr _ head _ [] blocks0 hload
        (List.chain'_singleton _) (List.chain'_singleton _)
    refine ⟨NumberLinked_load_ops pr hn, HashLinked_load_ops pr hh, ?_⟩
    rw [length_load_ops, hlen]
    simp only [List.length_cons, List.length_nil]
    rw [hmin]
    simp only [Nat.min_def]
    split_ifs <;> omega

/-- What a successful load_added_blocks_connecting_to_existing_chain
guarantees: a nonempty, number- and hash-linked added chain whose first
block is at most current + 1, stopping at genesis, outside the window, or
on a matching presumed parent. -/
theorem load_added_spec (pr : ChainProvider) (hpr : HonestProvider pr)
    {blocks : List BlockSummary} {current_block_number : Nat} {new_head : BlockSummary}
    {added : List BlockSummary}
    (hok : load_added_blocks_connecting_to_existing_chain pr blocks current_block_number
        new_head = some added) :
    ∃ h t, added = h :: t ∧ NumberLinked added ∧ HashLinked added
      ∧ h.number ≤ current_block_number + 1
      ∧ (h.number = 0
          ∨ (h.number ≠ 0 ∧ block_with_number blocks (h.number - 1) = none)
          ∨ (h.number ≠ 0 ∧ ∃ pp, block_with_number blocks (h.number - 1) = some pp
              ∧ pp.hash = h.parent_hash)) := by
  unfold load_added_blocks_connecting_to_existing_chain at hok
  match hload : load_blocks_back_to_number_no_ops pr new_head (current_block_number + 1) with
  | none => rw [hload] at hok; simp at hok
  | some added0 =>
    rw [hload] at hok
    unfold load_blocks_back_to_number_no_ops at hload
    obtain ⟨e, r, hout_eq, hn0, hh0, hmin0, _, _⟩ :=
      load_blocks_back_aux_spec pr hpr _ new_head _ [] added0 hload
        (List.chain'_singleton _) (List.chain'_singleton _)
    subst hout_eq
    dsimp only at hok
    match hcon : connect_aux pr blocks (e.number + 1) e r with
    | none => rw [hcon] at hok; simp at hok
    | some connected =>
      rw [hcon] at hok
      dsimp only at hok
      rw [Option.some_inj] at hok
      obtain ⟨h, t, hcon_eq, hn, hh, hle, _, _, hstop⟩ :=
        connect_aux_spec pr blocks hpr _ e r connected hcon hn0 hh0
      subst hcon_eq
      subst hok
      refine ⟨_, _, rfl, NumberLinked_load_ops pr hn, HashLinked_load_ops pr hh, ?_, ?_⟩
      · dsimp only
        have he : e.number ≤ current_block_number + 1 := by
          rw [hmin0]
          simp only [Nat.min_def]
          split_ifs <;> omega
        exact le_trans hle he
      · dsimp only
        exact hstop

/-- The window invariant: consecutive numbers, hash links, bounded
length. -/
def WindowInv (history_size : Nat) (blocks : List BlockSummary) : Prop :=
  NumberLinked blocks ∧ HashLinked blocks ∧ blocks.length ≤ history_size

/-- Every successful sync_to_block preserves the window invariant. -/
theorem sync_to_block_preserves_inv (pr : ChainProvider) (history_size : Nat)
    (hpr : HonestProvider pr) (hH : 1 ≤ history_size)
    {blocks : List BlockSummary} {raw : RawBlock} {u : ChainUpdate}
    {blocks' : List BlockSummary}
    (hinv : WindowInv history_size blocks)
    (hok : sync_to_block pr history_size blocks raw = some (u, blocks')) :
    WindowInv history_size blocks' := by
  obtain ⟨hwn, hwh, hwl⟩ := hinv
  unfold sync_to_block at hok
  match htf : try_from_block_without_ops raw none with
  | none => rw [htf] at hok; simp at hok
  | some new_head =>
    rw [htf] at hok
    dsimp only at hok
    match hlast : blocks.getLast? with
    | none =>
      rw [hlast] at hok
      exact reset_and_initialize_inv pr history_size hpr hH hok
    | some current_block =>
      rw [hlast] at hok
      dsimp only at hok
      by_cases hc1 : current_block.number < new_head.number + history_size
      · rw [if_pos hc1] at hok
        by_cases hc2 : current_block.number + history_size < new_head.number
        · rw [if_pos hc2] at hok
          exact reset_and_initialize_inv pr history_size hpr hH hok
        · rw [if_neg hc2] at hok
          match hload : load_added_blocks_connecting_to_existing_chain pr blocks
              current_block.number new_head with
          | none => rw [hload] at hok; simp at hok
          | some added =>
            rw [hload] at hok
            obtain ⟨h, t, hadd_eq, han, hah, hhle, hstop⟩ := load_added_spec pr hpr hload
            have hbne : blocks ≠ [] := by
              intro hcontra
              rw [hcontra] at hlast
              simp at hlast
            obtain ⟨front, hfr⟩ : ∃ front, blocks.head? = some front := by
              cases blocks with
              | nil => exact absurd rfl hbne
              | cons a l => exact ⟨a, rfl⟩
            have hlastnum := NumberLinked_last hwn hfr hlast
            have hjunction : h.number ≤ front.number
                ∨ (front.number < h.number
                    ∧ ∃ pp, blocks.get? (h.number - 1 - front.number) = some pp
                        ∧ pp.hash = h.parent_hash) := by
              rcases hstop with hz | ⟨hnz, hnone⟩ | ⟨hnz, pp, hsome, hpphash⟩
              · exact Or.inl (by omega)
              · left
                unfold block_with_number at hnone
                rw [hfr] at hnone
                dsimp only at hnone
                by_cases hlt : h.number - 1 < front.number
                · omega
                · rw [if_neg hlt] at hnone
                  rw [List.get?_eq_none] at hnone
                  omega
              · right
                unfold block_with_number at hsome
                rw [hfr] at hsome
                dsimp only at hsome
                by_cases hlt : h.number - 1 < front.number
                · rw [if_pos hlt] at hsome
                  exact absurd hsome (by simp)
                · rw [if_neg hlt] at hsome
                  exact ⟨by omega, pp, hsome, hpphash⟩
            exact update_with_blocks_inv history_size hwn hwh han hah
              (hadd_eq ▸ rfl) hfr hlast hjunction hok
      · rw [if_neg hc1] at hok
        simp at hok

/-- One successful head advance of sync_to_block, as a relation between
windows. -/
def SyncStep (pr : ChainProvider) (history_size : Nat)
    (blocks blocks' : List BlockSummary) : Prop :=
  ∃ raw u, sync_to_block pr history_size blocks raw = some (u, blocks')

/-- Windows reachable from the empty window by successful sync_to_block
calls. -/
inductive SyncReachable (pr : ChainProvider) (history_size : Nat) :
    List BlockSummary → Prop
  | nil : SyncReachable pr history_size []
  | step {blocks blocks' : List BlockSummary} :
      SyncReachable pr history_size blocks →
      SyncStep pr history_size blocks blocks' →
      SyncReachable pr history_size blocks'

theorem SyncReachable_inv (pr : ChainProvider) (history_size : Nat)
    (hpr : HonestProvider pr) (hH : 1 ≤ history_size)
    {blocks : List BlockSummary} (hreach : SyncReachable pr history_size blocks) :
    WindowInv history_size blocks := by
  induction hreach with
  | nil => exact ⟨List.chain'_nil, List.chain'_nil, by simp⟩
  | step _ hs ih =>
    obtain ⟨raw, u, hok⟩ := hs
    exact sync_to_block_preserves_inv pr history_size hpr hH ih hok

/-- C3: for every sequence of successful sync_to_block calls starting
from an empty window (against an honest provider, with the constructor's
requirement history_size ≥ 1), the resulting block window is hash-linked
(blocks[i+1].parent_hash = blocks[i].hash for every adjacent pair) and
its length never exceeds history_size. -/
theorem C3_window_hash_linked_and_bounded (pr : ChainProvider) (history_size : Nat)
    (hpr : HonestProvider pr) (hH : 1 ≤ history_size)
    (blocks : List BlockSummary) (hreach : SyncReachable pr history_size blocks) :
    HashLinked blocks ∧ blocks.length ≤ history_size :=
  ⟨(SyncReachable_inv pr history_size hpr hH hreach).2.1,
   (SyncReachable_inv pr history_size hpr hH hreach).2.2⟩

/-- A two-block concrete chain for exercising C3. -/
def c3pr : ChainProvider :=
  { get_block := fun h => if h = 10 then some ⟨some 0, some 10, 0, 0⟩ else none
    get_logs := fun _ => ([], []) }

def c3Window : List BlockSummary := [⟨0, 10, 0, 0, [], []⟩, ⟨1, 11, 0, 10, [], []⟩]

/-- Witness for C3: one successful sync from the empty window against a
two-block chain with history_size 2 yields a hash-linked window of
length 2. -/
theorem C3_window_hash_linked_and_bounded_witness :
    HonestProvider c3pr ∧ 1 ≤ 2 ∧ SyncReachable c3pr 2 c3Window
      ∧ HashLinked c3Window ∧ c3Window.length ≤ 2 := by
  have hpr : HonestProvider c3pr := by
    intro h raw hr
    unfold c3pr at hr
    dsimp only at hr
    by_cases hh : h = 10
    · rw [if_pos hh, Option.some_inj] at hr
      subst hr
      rw [hh]
    · rw [if_neg hh] at hr
      exact Option.noConfusion hr
  have hreach : SyncReachable c3pr 2 c3Window :=
    SyncReachable.step SyncReachable.nil
      ⟨⟨some 1, some 11, 10, 0⟩, ⟨1, 11, 0, 0, 0, [], [], [], [], false⟩, by decide⟩
  exact ⟨hpr, by omega, hreach,
    (C3_window_hash_linked_and_bounded c3pr 2 hpr (by omega) c3Window hreach).1,
    (C3_window_hash_linked_and_bounded c3pr 2 hpr (by omega) c3Window hreach).2⟩

/-- chain.rs: ChainUpdate::deduped_ops. -/
def deduped_ops (u : ChainUpdate) : List MinedOp × List MinedOp :=
  let mined_op_hashes := u.mined_ops.map (fun op => op.hash)
  let unmined_op_hashes := u.unmined_ops.map (fun op => op.hash)
  (u.mined_ops.filter (fun op => ! unmined_op_hashes.contains op.hash),
   u.unmined_ops.filter (fun op => ! mined_op_hashes.contains op.hash))

/-! ## Transaction tracker (src/builder/transaction_tracker.rs)

Provider and sender calls are oracles: get_transaction_count yields
external_nonce, sender.get_transaction_status is a function from tx hash
to Option TxStatus (none = RPC error, aborting the call), and each poll
iteration of the wait loop draws its own oracles from a list. -/

structure GasFees where
  max_fee_per_gas : Nat
  max_priority_fee_per_gas : Nat
deriving Repr, DecidableEq

/-- Modelled from the spec: GasFees::increase_by_percent lives in the
types crate's gas module, which is not part of the excerpt; the spec
says required fees are the last attempt's fees "bumped by
replacement_fee_percent_increase", modelled as multiplying each fee by
(100 + percent) / 100.  No claim below depends on the exact formula. -/
def GasFees.increase_by_percent (fees : GasFees) (percent : Nat) : GasFees :=
  { max_fee_per_gas := fees.max_fee_per_gas * (100 + percent) / 100
    max_priority_fee_per_gas := fees.max_priority_fee_per_gas * (100 + percent) / 100 }

/-- builder/sender: TxStatus. -/
inductive TxStatus
  | Pending
  | Mined (block_number : Nat)
  | Dropped
deriving Repr, DecidableEq

structure PendingTransaction where
  tx_hash : Nat
  gas_fees : GasFees
  attempt_number : Nat
deriving Repr, DecidableEq

inductive TrackerUpdate
  | Mined (tx_hash : Nat) (gas_fees : GasFees) (block_number : Nat) (attempt_number : Nat)
  | StillPendingAfterWait
  | LatestTxDropped
  | NonceUsedForOtherTx
deriving Repr, DecidableEq

structure TrackerSettings where
  max_blocks_to_wait_for_mine : Nat
  replacement_fee_percent_increase : Nat
deriving Repr, DecidableEq

/-- The mutable fields of TransactionTrackerImplInner. -/
structure TrackerState where
  nonce : Nat
  transactions : List PendingTransaction
  has_dropped : Bool
  attempt_count : Nat
deriving Repr, DecidableEq

/-- transaction_tracker.rs: get_nonce_and_required_fees. -/
def get_nonce_and_required_fees (settings : TrackerSettings) (st : TrackerState) :
    Nat × Option GasFees :=
  let gas_fees :=
    if st.has_dropped then none
    else
      st.transactions.getLast?.map (fun tx =>
        tx.gas_fees.increase_by_percent settings.replacement_fee_percent_increase)
  (st.nonce, gas_fees)

/-- transaction_tracker.rs: set_nonce_and_clear_state. -/
def set_nonce_and_clear_state (st : TrackerState) (nonce : Nat) : TrackerState :=
  { st with nonce := nonce, transactions := [], has_dropped := false, attempt_count := 0 }

/-- The newest-first scan over transactions in check_for_update_now (its
input is st.transactions.reverse): the first Mined wins, otherwise
NonceUsedForOtherTx; a status error (none) aborts. -/
def check_scan (statusOf : Nat → Option TxStatus) :
    List PendingTransaction → Option TrackerUpdate
  | [] => some TrackerUpdate.NonceUsedForOtherTx
  | tx :: rest =>
    match statusOf tx.tx_hash with
    | none => none
    | some (TxStatus.Mined block_number) =>
      some (TrackerUpdate.Mined tx.tx_hash tx.gas_fees block_number tx.attempt_number)
    | some _ => check_scan statusOf rest

/-- transaction_tracker.rs: check_for_update_now.  external_nonce is the
provider's get_transaction_count result; statusOf the sender's
get_transaction_status.  The outer none models a provider/sender error
(in which case the tracker state is unchanged, as the early return with ?
happens before any mutation). -/
def check_for_update_now (st : TrackerState) (external_nonce : Nat)
    (statusOf : Nat → Option TxStatus) : Option (Option TrackerUpdate × TrackerState) :=
  if st.nonce < external_nonce then
    match check_scan statusOf st.transactions.reverse with
    | none => none
    | some out => some (some out, set_nonce_and_clear_state st external_nonce)
  else if st.has_dropped then
    some (none, st)
  else
    match st.transactions.getLast? with
    | none => some (none, st)
    | some last_tx =>
      match statusOf last_tx.tx_hash with
      | none => none
      | some TxStatus.Pending => some (none, st)
      | some (TxStatus.Mined block_number) =>
        some (some (TrackerUpdate.Mined last_tx.tx_hash last_tx.gas_fees block_number
                last_tx.attempt_number),
              set_nonce_and_clear_state st (st.nonce + 1))
      | some TxStatus.Dropped =>
        some (some TrackerUpdate.LatestTxDropped, { st with has_dropped := true })

/-- The tx fields send_transaction_and_wait reads: nonce (optional on a
TypedTransaction) and GasFees::from(&tx). -/
structure TypedTransaction where
  nonce : Option Nat
  gas_fees : GasFees
deriving Repr, DecidableEq

/-- transaction_tracker.rs: validate_transaction, as the boolean
"no bail".  All three bail cases (missing nonce, nonce mismatch, fees
below the required floor) are the tracker-local validation failure the
spec calls InvalidSubmission. -/
def validate_transaction (settings : TrackerSettings) (st : TrackerState)
    (tx : TypedTransaction) : Bool :=
  match tx.nonce with
  | none => false
  | some nonce =>
    let r := get_nonce_and_required_fees settings st
    if nonce ≠ r.1 then
      false
    else
      match r.2 with
      | some required_gas_fees =>
        ! (tx.gas_fees.max_fee_per_gas < required_gas_fees.max_fee_per_gas
            || tx.gas_fees.max_priority_fee_per_gas
                < required_gas_fees.max_priority_fee_per_gas)
      | none => true

structure SentTxInfo where
  nonce : Nat
  tx_hash : Nat
deriving Repr, DecidableEq

/-- Per-iteration oracles of the polling loop: the external nonce, the
status function, and the get_block_number result (none = provider
error). -/
structure PollStep where
  external_nonce : Nat
  statusOf : Nat → Option TxStatus
  current_block : Option Nat

/-- Outcome of send_transaction_and_wait: a TrackerUpdate, the
tracker-local validation failure (InvalidSubmission), or a propagated
provider/sender error. -/
inductive SendOutcome
  | update (u : TrackerUpdate)
  | invalid_submission
  | errored
deriving Repr, DecidableEq

/-- transaction_tracker.rs: wait_for_update_or_new_blocks.  One PollStep
is consumed per loop iteration; running out of oracle steps is modelled
as an error (the Rust loop would keep polling). -/
def wait_for_update_or_new_blocks (settings : TrackerSettings) (start_block : Nat) :
    List PollStep → TrackerState → Option TrackerUpdate × TrackerState
  | [], st => (none, st)
  | step :: rest, st =>
    match check_for_update_now st step.external_nonce step.statusOf with
    | none => (none, st)
    | some (some u, st') => (some u, st')
    | some (none, st') =>
      match step.current_block with
      | none => (none, st')
      | some current_block_number =>
        if start_block + settings.max_blocks_to_wait_for_mine ≤ current_block_number then
          (some TrackerUpdate.StillPendingAfterWait, st')
        else
          wait_for_update_or_new_blocks settings start_block rest st'

/-- The environment of one send_transaction_and_wait call. -/
structure SendEnv where
  send_result : Option SentTxInfo
  err_check : PollStep
  start_block : Option Nat
  steps : List PollStep

/-- transaction_tracker.rs: send_transaction_and_wait (with
handle_send_error inlined for the sender-error path).  The boolean in
the result records whether sender.send_transaction was invoked. -/
def send_transaction_and_wait (settings : TrackerSettings) (st : TrackerState)
    (tx : TypedTransaction) (env : SendEnv) : SendOutcome × TrackerState × Bool :=
  if ! validate_transaction settings st tx then
    (SendOutcome.invalid_submission, st, false)
  else
    let gas_fees := tx.gas_fees
    match env.send_result with
    | none =>
      -- handle_send_error: one last check_for_update_now before
      -- surfacing the send error
      match check_for_update_now st env.err_check.external_nonce env.err_check.statusOf with
      | none => (SendOutcome.errored, st, true)
      | some (none, st') => (SendOutcome.errored, st', true)
      | some (some u, st') =>
        match u with
        | TrackerUpdate.Mined _ _ _ _ => (SendOutcome.update u, st', true)
        | TrackerUpdate.NonceUsedForOtherTx => (SendOutcome.update u, st', true)
        | _ => (SendOutcome.errored, st', true)
    | some sent_tx =>
      let st :=
        { st with
          transactions := st.transactions
            ++ [{ tx_hash := sent_tx.tx_hash, gas_fees := gas_fees,
                  attempt_number := st.attempt_count }]
          has_dropped := false
          attempt_count := st.attempt_count + 1 }
      match env.start_block with
      | none => (SendOutcome.errored, st, true)
      | some start_block =>
        match wait_for_update_or_new_blocks settings start_block env.steps st with
        | (some u, st') => (SendOutcome.update u, st', true)
        | (none, st') => (SendOutcome.errored, st', true)

/-! ## Raw transaction sender (crates/builder/src/sender/raw.rs) -/

/-- What provider.get_transaction returns for a hash, reduced to the one
field the code reads. -/
structure TransactionQueryResult where
  block_number : Option Nat
deriving Repr, DecidableEq

/-- raw.rs: RawTransactionSender::get_transaction_status, on the
provider's successful reply.  The None arm carries the debug override
("FIXME - workaround") that reports Pending instead of Dropped. -/
def raw_get_transaction_status (tx : Option TransactionQueryResult) : TxStatus :=
  match tx with
  | none =>
    -- FIXME - workaround in the source: overrides TxStatus::Dropped
    TxStatus.Pending
  | some t =>
    match t.block_number with
    | none => TxStatus.Pending
    | some block_number => TxStatus.Mined block_number

/-- C9: the raw transaction sender's get_transaction_status contains a
debug override forcing the dropped case to report as Pending: when the
provider returns no transaction it answers Pending (instead of Dropped),
a transaction without a block number is Pending, one with a block number
is Mined at that block — and the Dropped variant of the declared result
type is never produced. -/
theorem C9_raw_sender_never_dropped :
    (∀ tx, raw_get_transaction_status tx ≠ TxStatus.Dropped)
      ∧ raw_get_transaction_status none = TxStatus.Pending
      ∧ (∀ bn : Option Nat, raw_get_transaction_status (some ⟨bn⟩)
          = match bn with
            | none => TxStatus.Pending
            | some block_number => TxStatus.Mined block_number) := by
  refine ⟨?_, rfl, ?_⟩
  · intro tx
    rcases tx with _ | ⟨_ | bn⟩ <;> simp [raw_get_transaction_status]
  · intro bn
    rcases bn with _ | bn <;> rfl

/-- Concrete state refuting C5 as stated: tracker nonce 5 with one
pending transaction, while the external nonce jumped to 7 (two
transactions from the account mined).  check_for_update_now returns a
Mined outcome, but the post-state nonce is the confirmed external value
7, not the pre-mine nonce + 1 = 6. -/
def c5Fees : GasFees := ⟨50, 5⟩

def c5St : TrackerState := ⟨5, [⟨1, c5Fees, 0⟩], false, 1⟩

theorem C5_nonce_jump_counterexample :
    check_for_update_now c5St 7 (fun _ => some (TxStatus.Mined 10))
        = some (some (TrackerUpdate.Mined 1 c5Fees 10 0), set_nonce_and_clear_state c5St 7)
      ∧ (set_nonce_and_clear_state c5St 7).nonce = 7
      ∧ c5St.nonce + 1 = 6 := by
  decide

/-- C5 amended: after any tracker call that returns a Mined outcome (all
of which flow through check_for_update_now), the post-mined reset clears
transactions, sets has_dropped to false and attempt_count to zero, and
sets the nonce to the confirmed post-mining value — the provider's
transaction count when the nonce advanced externally, and the pre-mine
nonce + 1 when the latest tracked transaction itself was found mined;
get_nonce_and_required_fees then returns that nonce with required fees
None. -/
theorem C5_after_mined_reset (settings : TrackerSettings) (st : TrackerState)
    (external_nonce : Nat) (statusOf : Nat → Option TxStatus)
    (tx_hash : Nat) (gas_fees : GasFees) (block_number attempt_number : Nat)
    (st' : TrackerState)
    (hok : check_for_update_now st external_nonce statusOf
        = some (some (TrackerUpdate.Mined tx_hash gas_fees block_number attempt_number),
                st')) :
    st'.transactions = [] ∧ st'.has_dropped = false ∧ st'.attempt_count = 0
      ∧ st'.nonce = (if st.nonce < external_nonce then external_nonce else st.nonce + 1)
      ∧ get_nonce_and_required_fees settings st' = (st'.nonce, none) := by
  unfold check_for_update_now at hok
  by_cases hlt : st.nonce < external_nonce
  · rw [if_pos hlt] at hok
    match hscan : check_scan statusOf st.transactions.reverse with
    | none => rw [hscan] at hok; simp at hok
    | some out =>
      rw [hscan] at hok
      dsimp only at hok
      rw [Option.some_inj] at hok
      injection hok with hupd hst
      subst hst
      refine ⟨rfl, rfl, rfl, ?_, ?_⟩
      · rw [if_pos hlt]
        rfl
      · rfl
  · rw [if_neg hlt] at hok
    by_cases hdrop : st.has_dropped
    · rw [if_pos hdrop] at hok
      rw [Option.some_inj] at hok
      injection hok with hupd hst
      exact absurd hupd (by simp)
    · rw [if_neg hdrop] at hok
      match hlast : st.transactions.getLast? with
      | none =>
        rw [hlast] at hok
        rw [Option.some_inj] at hok
        injection hok with hupd hst
        exact absurd hupd (by simp)
      | some last_tx =>
        rw [hlast] at hok
        dsimp only at hok
        match hstat : statusOf last_tx.tx_hash with
        | none => rw [hstat] at hok; simp at hok
        | some TxStatus.Pending =>
          rw [hstat] at hok
          rw [Option.some_inj] at hok
          injection hok with hupd hst
          exact absurd hupd (by simp)
        | some (TxStatus.Mined bn) =>
          rw [hstat] at hok
          dsimp only at hok
          rw [Option.some_inj] at hok
          injection hok with hupd hst
          subst hst
          refine ⟨rfl, rfl, rfl, ?_, ?_⟩
          · rw [if_neg hlt]
            rfl
          · rfl
        | some TxStatus.Dropped =>
          rw [hstat] at hok
          rw [Option.some_inj] at hok
          injection hok with hupd hst
          exact absurd hupd (by simp)

/-- Witness for the amended C5: the latest tracked transaction mines
while the external nonce still equals the tracker's, so the reset sets
nonce = 5 + 1. -/
theorem C5_after_mined_reset_witness :
    check_for_update_now c5St 5 (fun _ => some (TxStatus.Mined 10))
        = some (some (TrackerUpdate.Mined 1 c5Fees 10 0), set_nonce_and_clear_state c5St 6)
      ∧ (set_nonce_and_clear_state c5St 6).transactions = []
      ∧ (set_nonce_and_clear_state c5St 6).has_dropped = false
      ∧ (set_nonce_and_clear_state c5St 6).attempt_count = 0
      ∧ (set_nonce_and_clear_state c5St 6).nonce
          = (if c5St.nonce < 5 then 5 else c5St.nonce + 1)
      ∧ get_nonce_and_required_fees ⟨3, 10⟩ (set_nonce_and_clear_state c5St 6)
          = ((set_nonce_and_clear_state c5St 6).nonce, none) :=
  ⟨by decide,
   (C5_after_mined_reset ⟨3, 10⟩ c5St 5 (fun _ => some (TxStatus.Mined 10)) 1 c5Fees 10 0
     (set_nonce_and_clear_state c5St 6) (by decide)).1,
   ((C5_after_mined_reset ⟨3, 10⟩ c5St 5 (fun _ => some (TxStatus.Mined 10)) 1 c5Fees 10 0
     (set_nonce_and_clear_state c5St 6) (by decide)).2.1),
   ((C5_after_mined_reset ⟨3, 10⟩ c5St 5 (fun _ => some (TxStatus.Mined 10)) 1 c5Fees 10 0
     (set_nonce_and_clear_state c5St 6) (by decide)).2.2.1),
   ((C5_after_mined_reset ⟨3, 10⟩ c5St 5 (fun _ => some (TxStatus.Mined 10)) 1 c5Fees 10 0
     (set_nonce_and_clear_state c5St 6) (by decide)).2.2.2.1),
   ((C5_after_mined_reset ⟨3, 10⟩ c5St 5 (fun _ => some (TxStatus.Mined 10)) 1 c5Fees 10 0
     (set_nonce_and_clear_state c5St 6) (by decide)).2.2.2.2)⟩

/-- C7: a transaction whose nonce differs from the tracker's current
nonce fails the tracker-local validation: send_transaction_and_wait
returns InvalidSubmission before the sender's send_transaction is ever
called, and the tracker state (nonce, transactions, has_dropped,
attempt_count) is unchanged. -/
theorem C7_nonce_mismatch_invalid_submission (settings : TrackerSettings)
    (st : TrackerState) (tx : TypedTransaction) (env : SendEnv) (n : Nat)
    (hn : tx.nonce = some n) (hne : n ≠ st.nonce) :
    send_transaction_and_wait settings st tx env
      = (SendOutcome.invalid_submission, st, false) := by
  have hv : validate_transaction settings st tx = false := by
    unfold validate_transaction
    rw [hn]
    dsimp only [get_nonce_and_required_fees]
    rw [if_pos hne]
  unfold send_transaction_and_wait
  rw [hv]
  rfl

/-- Witness for C7 at a concrete mismatched nonce. -/
theorem C7_nonce_mismatch_invalid_submission_witness :
    (⟨some 6, ⟨50, 5⟩⟩ : TypedTransaction).nonce = some 6
      ∧ (6 : Nat) ≠ c5St.nonce
      ∧ send_transaction_and_wait ⟨3, 10⟩ c5St ⟨some 6, ⟨50, 5⟩⟩
          ⟨some ⟨5, 77⟩, ⟨5, fun _ => some TxStatus.Pending, some 0⟩, some 0, []⟩
        = (SendOutcome.invalid_submission, c5St, false) :=
  ⟨rfl, by decide,
   C7_nonce_mismatch_invalid_submission ⟨3, 10⟩ c5St ⟨some 6, ⟨50, 5⟩⟩
     ⟨some ⟨5, 77⟩, ⟨5, fun _ => some TxStatus.Pending, some 0⟩, some 0, []⟩ 6
     rfl (by decide)⟩

end Rundler
